import Mathlib

/-!
Verification of the dom-asm document-structure compiler.

Strings from the TypeScript source are modelled as `List Char` (alias `Str`)
so that every definition evaluates inside the kernel.  JavaScript `Map`
objects are modelled as insertion-ordered association lists, JavaScript
`Set` objects as insertion-ordered lists, and reference identity of AST
nodes as equality of the unique node ids the parser assigns.  Functions
that the source writes as `while` loops are modelled with an explicit
fuel argument that is always at least the number of iterations the loop
can perform (each loop strictly advances the scan position, so
`input.length + 1` fuel is exhaustive); fuel exhaustion returns the
current state unchanged.
-/

set_option maxRecDepth 10000

abbrev Str := List Char

/-- JavaScript `String.prototype.toLowerCase` restricted to ASCII, the only
range the repository's inputs exercise. -/
def jsCharLower (c : Char) : Char :=
  if 'A' ≤ c ∧ c ≤ 'Z' then Char.ofNat (c.toNat + 32) else c

def jsLower (s : Str) : Str := s.map jsCharLower

/-- JavaScript `\s` character class (ASCII part). -/
def jsIsWS (c : Char) : Bool :=
  c = ' ' ∨ c = '\t' ∨ c = '\n' ∨ c = '\r' ∨ c = '\x0b' ∨ c = '\x0c'

/-- `content.trim()` is truthy (non-empty) exactly when some character is
not whitespace. -/
def jsHasNonWS (s : Str) : Bool := s.any (fun c => ¬ jsIsWS c)

/-- JavaScript `String.prototype.trim`. -/
def jsTrim (s : Str) : Str :=
  ((s.dropWhile (fun c => jsIsWS c)).reverse.dropWhile (fun c => jsIsWS c)).reverse

/-- `input[i]` — JavaScript indexing returns `undefined` past the end,
modelled as `none`. -/
def charAt (s : Str) (i : Nat) : Option Char := s.get? i

/-- `input.substring(a, b)` for `a ≤ b`. -/
def strSlice (s : Str) (a b : Nat) : Str := (s.drop a).take (b - a)

/-- JavaScript `Map.prototype.set`: replace in place if the key exists,
otherwise append. -/
def mapSet (m : List (Str × Str)) (k v : Str) : List (Str × Str) :=
  match m with
  | [] => [(k, v)]
  | (k0, v0) :: rest => if k0 = k then (k, v) :: rest else (k0, v0) :: mapSet rest k v

/-- JavaScript `Map.prototype.get`, `none` for a missing key. -/
def mapGet (m : List (Str × Str)) (k : Str) : Option Str :=
  match m with
  | [] => none
  | (k0, v0) :: rest => if k0 = k then some v0 else mapGet rest k

/-- Render a natural number in decimal (for string signatures). -/
def natToStr (n : Nat) : Str :=
  (Nat.toDigits 10 n)

/- ================================================================
   part_003 `HTMLTokenizer` (legacy scanner, the source cited by the
   round-trip and lower-casing claims).
   ================================================================ -/

inductive HTokType where
  | StartTag | EndTag | Text | Comment | ConditionalComment | Doctype | CDATA | EOF
deriving DecidableEq

/-- Token record; the variant-specific payload fields default to empty
for variants that do not carry them.  `stop` models the source's `end`
field (a Lean keyword). -/
structure HTok where
  type : HTokType
  name : Str := []
  attrs : List (Str × Str) := []
  selfClosing : Bool := false
  content : Str := []
  isWhitespace : Bool := false
  tdata : Str := []
  condition : Str := []
  publicId : Option Str := none
  systemId : Option Str := none
  start : Nat := 0
  stop : Nat := 0
  line : Nat := 1
  col : Nat := 1
  raw : Str := []
deriving DecidableEq

structure TokErr where
  message : Str
  severity : Str
  line : Nat
  col : Nat
  start : Nat
  stop : Nat
deriving DecidableEq

/-- `TokenizerOptions` of part_003 with the source's defaults. -/
structure T3Options where
  xmlMode : Bool := false
  recognizeCDATA : Bool := true
  recognizeConditionalComments : Bool := true
  preserveWhitespace : Bool := false
  allowUnclosedTags : Bool := true
  advanced : Bool := false
deriving DecidableEq

structure T3St where
  input : Str
  pos : Nat
  line : Nat
  col : Nat
  tokens : List HTok
  errors : List TokErr
deriving DecidableEq

def t3Init (input : Str) : T3St :=
  { input := input, pos := 0, line := 1, col := 1, tokens := [], errors := [] }

/-- One step of `advance()`: bounded by the input length, tracks line and
column exactly as the source does. -/
def adv1 (st : T3St) : T3St :=
  match charAt st.input st.pos with
  | none => st
  | some c =>
    if c = '\n' then { st with pos := st.pos + 1, line := st.line + 1, col := 1 }
    else { st with pos := st.pos + 1, col := st.col + 1 }

/-- `advance(count)`. -/
def advN (st : T3St) : Nat → T3St
  | 0 => st
  | n + 1 => advN (adv1 st) n

/-- `match(str, caseInsensitive)` — a pure lookahead check. -/
def matchAt (st : T3St) (s : Str) (ci : Bool) : Bool :=
  if st.pos + s.length > st.input.length then false
  else if ci then jsLower (strSlice st.input st.pos (st.pos + s.length)) = jsLower s
  else strSlice st.input st.pos (st.pos + s.length) = s

def skipUntilGo (s : Str) : Nat → T3St → T3St
  | 0, st => st
  | fuel + 1, st =>
    if st.pos < st.input.length ∧ ¬ matchAt st s false then skipUntilGo s fuel (adv1 st)
    else st

/-- `skipUntil(char)`: scan forward to the target sequence, then step over
it when the end of input has not been reached. -/
def skipUntil (st : T3St) (s : Str) : T3St :=
  let st1 := skipUntilGo s (st.input.length + 1 - st.pos) st
  if st1.pos < st1.input.length then advN st1 s.length else st1

def readUntilGo (p : Char → Bool) : Nat → T3St → Str × T3St
  | 0, st => ([], st)
  | fuel + 1, st =>
    match charAt st.input st.pos with
    | none => ([], st)
    | some c =>
      if p c then ([], st)
      else
        let r := readUntilGo p fuel (adv1 st)
        (c :: r.1, r.2)

/-- `readUntil(predicate)`. -/
def readUntil (st : T3St) (p : Char → Bool) : Str × T3St :=
  readUntilGo p (st.input.length + 1 - st.pos) st

def skipWSGo : Nat → T3St → T3St
  | 0, st => st
  | fuel + 1, st =>
    match charAt st.input st.pos with
    | none => st
    | some c => if jsIsWS c then skipWSGo fuel (adv1 st) else st

/-- `skipWhitespace()`. -/
def skipWS (st : T3St) : T3St := skipWSGo (st.input.length + 1 - st.pos) st

/-- Character class `[a-zA-Z0-9\-\_\:\.]` used by `readTagName`. -/
def isTagChar (c : Char) : Bool :=
  ('a' ≤ c ∧ c ≤ 'z') ∨ ('A' ≤ c ∧ c ≤ 'Z') ∨ ('0' ≤ c ∧ c ≤ '9') ∨
    c = '-' ∨ c = '_' ∨ c = ':' ∨ c = '.'

/-- `readTagName()`. -/
def readTagName (st : T3St) : Str × T3St :=
  readUntil st (fun c => ¬ isTagChar c)

/-- Break set `[\s=\/>\?]` of `readAttributeName`. -/
def isAttrNameBreak (c : Char) : Bool :=
  jsIsWS c ∨ c = '=' ∨ c = '/' ∨ c = '>' ∨ c = '?'

def readAttributeName (st : T3St) : Str × T3St :=
  readUntil st isAttrNameBreak

/-- `readAttributeValue()`: quoted or unquoted forms. -/
def readAttributeValue (st : T3St) : Str × T3St :=
  match charAt st.input st.pos with
  | some q =>
    if q = '"' ∨ q = '\'' then
      let st1 := adv1 st
      let r := readUntil st1 (fun c => c = q)
      (r.1, adv1 r.2)
    else readUntil st (fun c => jsIsWS c ∨ c = '>' ∨ c = '/')
  | none => readUntil st (fun c => jsIsWS c ∨ c = '>' ∨ c = '/')

/-- Loop body of `readAttributes()`; attribute keys are lower-cased as
they are inserted. -/
def readAttrsGo : Nat → T3St → List (Str × Str) → List (Str × Str) × T3St
  | 0, st, acc => (acc, st)
  | fuel + 1, st, acc =>
    if st.pos < st.input.length then
      let st1 := skipWS st
      if charAt st1.input st1.pos = some '>' ∨ charAt st1.input st1.pos = some '/' ∨
          charAt st1.input st1.pos = some '?' then (acc, st1)
      else
        let rn := readAttributeName st1
        if rn.1 = [] then (acc, rn.2)
        else
          let st3 := skipWS rn.2
          if charAt st3.input st3.pos = some '=' then
            let st4 := skipWS (adv1 st3)
            let rv := readAttributeValue st4
            readAttrsGo fuel rv.2 (mapSet acc (jsLower rn.1) rv.1)
          else readAttrsGo fuel st3 (mapSet acc (jsLower rn.1) [])
    else (acc, st)

def readAttributes (st : T3St) : List (Str × Str) × T3St :=
  readAttrsGo (st.input.length + 1 - st.pos) st []

/-- The HTML5 void elements of `isSelfClosingTag`. -/
def selfClosingTags : List Str :=
  ["area".toList, "base".toList, "br".toList, "col".toList, "embed".toList,
   "hr".toList, "img".toList, "input".toList, "link".toList, "meta".toList,
   "param".toList, "source".toList, "track".toList, "wbr".toList]

def isSelfClosingTag (name : Str) : Bool :=
  selfClosingTags.any (fun t => t = jsLower name)

def pushTok (st : T3St) (t : HTok) : T3St := { st with tokens := st.tokens ++ [t] }

def reportErr (st : T3St) (msg : Str) (start stop : Nat) : T3St :=
  { st with errors := st.errors ++
      [{ message := msg, severity := "error".toList, line := st.line, col := st.col,
         start := start, stop := stop }] }

/-- `processText()`: consume text up to the next `<`; the token is emitted
unless the content is pure whitespace and whitespace preservation is off. -/
def processText (opts : T3Options) (st : T3St) : T3St :=
  let start := st.pos
  let sl := st.line
  let sc := st.col
  let r := readUntil st (fun c => c = '<')
  let content := r.1
  let st1 := r.2
  if jsHasNonWS content ∨ opts.preserveWhitespace then
    pushTok st1
      { type := HTokType.Text, content := content,
        isWhitespace := ¬ jsHasNonWS content,
        start := start, stop := st1.pos, line := sl, col := sc }
  else st1

/-- Deterministic reading of the conditional-comment pattern
`^\[if\s+([^\]]+)\]>?([\s\S]*?)<!\[endif\]$/i`: returns the condition and
content groups when the comment body matches. -/
def condCommentMatch (content : Str) : Option (Str × Str) :=
  match content with
  | '[' :: c1 :: c2 :: rest0 =>
    if jsCharLower c1 = 'i' ∧ jsCharLower c2 = 'f' then
      match rest0.findIdx? (fun c => c = ']') with
      | none => none
      | some j =>
        if 2 ≤ j ∧ jsIsWS (rest0.headD ' ') then
          let wsRun := (rest0.takeWhile (fun c => jsIsWS c)).length
          let w := min wsRun (j - 1)
          let cond := strSlice rest0 w j
          let tailPart := rest0.drop (j + 1)
          let tl := jsLower tailPart
          if 9 ≤ tailPart.length ∧ strSlice tl (tl.length - 9) tl.length = "<![endif]".toList then
            let inner :=
              if tailPart.headD ' ' = '>' ∧ 10 ≤ tailPart.length then
                strSlice tailPart 1 (tailPart.length - 9)
              else strSlice tailPart 0 (tailPart.length - 9)
            some (cond, inner)
          else none
        else none
    else none
  | _ => none

/-- `handleComment(start, startLine, startColumn)`. -/
def handleComment (opts : T3Options) (st : T3St) (start sl sc : Nat) : T3St :=
  let isConditional := opts.recognizeConditionalComments ∧ st.pos < st.input.length ∧
      charAt st.input st.pos = some '['
  let r := commentScan (st.input.length + 1 - st.pos) st
  let content := r.1
  let st1 := advN r.2 3
  if isConditional ∧ opts.recognizeConditionalComments then
    match condCommentMatch content with
    | some cg =>
      pushTok st1
        { type := HTokType.ConditionalComment, condition := jsTrim cg.1,
          content := jsTrim cg.2, start := start, stop := st1.pos, line := sl, col := sc }
    | none =>
      pushTok st1
        { type := HTokType.Comment, tdata := jsTrim content,
          start := start, stop := st1.pos, line := sl, col := sc }
  else
    pushTok st1
      { type := HTokType.Comment, tdata := jsTrim content,
        start := start, stop := st1.pos, line := sl, col := sc }
where
  commentScan : Nat → T3St → Str × T3St
    | 0, s => ([], s)
    | fuel + 1, s =>
      if s.pos < s.input.length then
        if matchAt s "-->".toList false then ([], s)
        else
          match charAt s.input s.pos with
          | none => ([], s)
          | some c =>
            let r := commentScan fuel (adv1 s)
            (c :: r.1, r.2)
      else ([], s)

def cdataScan : Nat → T3St → Str × T3St
  | 0, s => ([], s)
  | fuel + 1, s =>
    if s.pos < s.input.length then
      if matchAt s "]]>".toList false then ([], s)
      else
        match charAt s.input s.pos with
        | none => ([], s)
        | some c =>
          let r := cdataScan fuel (adv1 s)
          (c :: r.1, r.2)
    else ([], s)

/-- `handleCDATA(start, startLine, startColumn)`. -/
def handleCDATA (st : T3St) (start sl sc : Nat) : T3St :=
  let r := cdataScan (st.input.length + 1 - st.pos) st
  let st1 := advN r.2 3
  pushTok st1
    { type := HTokType.CDATA, content := r.1,
      start := start, stop := st1.pos, line := sl, col := sc }

def isAsciiAlpha (c : Char) : Bool := ('a' ≤ c ∧ c ≤ 'z') ∨ ('A' ≤ c ∧ c ≤ 'Z')

def skipToGtGo : Nat → T3St → T3St
  | 0, st => st
  | fuel + 1, st =>
    if st.pos < st.input.length ∧ ¬ (charAt st.input st.pos = some '>') then
      skipToGtGo fuel (adv1 st)
    else st

/-- The quoted-identifier reading block that `handleDoctype` repeats for
the PUBLIC and SYSTEM identifiers: if the current character is a quote,
consume it, read to the matching quote and consume that too. -/
def readQuotedId (st : T3St) : Option Str × T3St :=
  match charAt st.input st.pos with
  | some q =>
    if q = '"' ∨ q = '\'' then
      let st1 := adv1 st
      let r := readUntil st1 (fun c => c = q)
      (some r.1, adv1 r.2)
    else (none, st)
  | none => (none, st)

/-- The DOCTYPE-name reading step of `handleDoctype`.  Note the source tests
`/[a-zA-Z]/.test(this._input[this._position])`; past the end of input the
indexing yields `undefined`, which that regex coerces to the string
`"undefined"` and accepts, so the name-reading branch is also taken there. -/
def doctypeNameRead (st1 : T3St) : Str × T3St :=
  let b : Bool :=
    match charAt st1.input st1.pos with
    | some c => isAsciiAlpha c
    | none => true
  if b then
    let r := readUntil st1 (fun c => jsIsWS c ∨ c = '>')
    (jsLower r.1, r.2)
  else ("html".toList, st1)

/-- The PUBLIC/SYSTEM identifier block of `handleDoctype`. -/
def doctypeIds (st2 : T3St) : Option Str × Option Str × T3St :=
  if matchAt st2 "PUBLIC".toList true then
    let rPub := readQuotedId (skipWS (advN st2 6))
    let rSys := readQuotedId (skipWS rPub.2)
    (rPub.1, rSys.1, rSys.2)
  else if matchAt st2 "SYSTEM".toList true then
    let rSys := readQuotedId (skipWS (advN st2 6))
    ((none : Option Str), rSys.1, rSys.2)
  else ((none : Option Str), (none : Option Str), st2)

/-- `handleDoctype(start, startLine, startColumn)`: skip whitespace, read
the name (default `html`), read the optional PUBLIC/SYSTEM identifiers,
skip to `>` and past it, and emit the token. -/
def handleDoctype (st : T3St) (start sl sc : Nat) : T3St :=
  let rN := doctypeNameRead (skipWS st)
  let ids := doctypeIds (skipWS rN.2)
  let st7 := adv1 (skipToGtGo (ids.2.2.input.length + 1 - ids.2.2.pos) ids.2.2)
  pushTok st7
    { type := HTokType.Doctype, name := rN.1, publicId := ids.1,
      systemId := ids.2.1, start := start, stop := st7.pos, line := sl, col := sc }

/-- The end-tag body of `processTag` (after `</` has been consumed): read
the tag name, emit an end-tag token with the lower-cased name, or report a
malformed end tag. -/
def processEndTagBody (start sl sc : Nat) (st2 : T3St) : T3St :=
  let rT := readTagName st2
  if rT.1 ≠ [] then
    pushTok rT.2
      { type := HTokType.EndTag, name := jsLower rT.1,
        start := start, stop := rT.2.pos, line := sl, col := sc }
  else reportErr rT.2 "Malformed end tag".toList start rT.2.pos

/-- The self-closing determination at the end of a start tag: an explicit
`/>` or a void element name before `>`. -/
def startTagSelfClose (tagName : Str) (st4 : T3St) : Bool × T3St :=
  if charAt st4.input st4.pos = some '/' ∧ charAt st4.input (st4.pos + 1) = some '>' then
    (true, adv1 st4)
  else if charAt st4.input st4.pos = some '>' then (isSelfClosingTag tagName, st4)
  else (false, st4)

/-- The start-tag body of `processTag`: read the name and attributes,
determine self-closing, and emit a start-tag token with the lower-cased
name, or report a malformed start tag. -/
def processStartTagBody (start sl sc : Nat) (st1 : T3St) : T3St :=
  let rT := readTagName st1
  if rT.1 ≠ [] then
    let rA := readAttributes rT.2
    let sc2 := startTagSelfClose rT.1 (skipWS rA.2)
    pushTok sc2.2
      { type := HTokType.StartTag, name := jsLower rT.1, attrs := rA.1,
        selfClosing := sc2.1, start := start, stop := sc2.2.pos, line := sl, col := sc }
  else reportErr rT.2 "Malformed start tag".toList start rT.2.pos

/-- `processTag()`: dispatch on the character after `<`. -/
def processTag (opts : T3Options) (st : T3St) : T3St :=
  let start := st.pos
  let sl := st.line
  let sc := st.col
  let st1 := adv1 st
  if charAt st1.input st1.pos = some '/' then
    skipUntil (processEndTagBody start sl sc (adv1 st1)) ">".toList
  else if charAt st1.input st1.pos = some '!' then
    let st2 := adv1 st1
    if matchAt st2 "--".toList false then
      handleComment opts (advN st2 2) start sl sc
    else if opts.recognizeCDATA ∧ matchAt st2 "[CDATA[".toList false then
      handleCDATA (advN st2 7) start sl sc
    else if matchAt st2 "DOCTYPE".toList true then
      handleDoctype (advN st2 7) start sl sc
    else
      skipUntil (reportErr st2 "Malformed special tag".toList start st2.pos) ">".toList
  else if charAt st1.input st1.pos = some '?' then
    let st2 := adv1 st1
    adv1 (skipUntil st2 "?>".toList)
  else
    skipUntil (processStartTagBody start sl sc st1) ">".toList

def tokenizeGo (opts : T3Options) : Nat → T3St → T3St
  | 0, st => st
  | fuel + 1, st =>
    if st.pos < st.input.length then
      if charAt st.input st.pos = some '<' then
        tokenizeGo opts fuel (processTag opts st)
      else tokenizeGo opts fuel (processText opts st)
    else st

/-- part_003 `tokenize()`: the scan loop followed by the EOF token. -/
def t3Tokenize (input : Str) (opts : T3Options) : T3St :=
  let st := tokenizeGo opts (input.length + 1) (t3Init input)
  pushTok st
    { type := HTokType.EOF, start := st.pos, stop := st.pos, line := st.line, col := st.col }

/-- Concatenation of the input substrings delimited by each token's span,
in emission order. -/
def spanConcat (input : Str) (tokens : List HTok) : Str :=
  tokens.foldr (fun t acc => strSlice input t.start t.stop ++ acc) []

/- ================================================================
   Claim C1: span round-trip of part_003 `tokenize`.
   ================================================================ -/

theorem charAt_eq_none (s : Str) (i : Nat) (h : s.length ≤ i) : charAt s i = none := by
  rw [charAt]
  exact List.get?_eq_none.2 h

theorem charAt_lt (s : Str) (i : Nat) (h : i < s.length) :
    charAt s i = some (s.get ⟨i, h⟩) := by
  simp [charAt, List.get?_eq_get h]

theorem adv1_input (st : T3St) : (adv1 st).input = st.input := by
  cases hc : charAt st.input st.pos with
  | none => simp [adv1, hc]
  | some c => by_cases hn : c = '\n' <;> simp [adv1, hc, hn]

theorem adv1_tokens (st : T3St) : (adv1 st).tokens = st.tokens := by
  cases hc : charAt st.input st.pos with
  | none => simp [adv1, hc]
  | some c => by_cases hn : c = '\n' <;> simp [adv1, hc, hn]

theorem adv1_errors (st : T3St) : (adv1 st).errors = st.errors := by
  cases hc : charAt st.input st.pos with
  | none => simp [adv1, hc]
  | some c => by_cases hn : c = '\n' <;> simp [adv1, hc, hn]

theorem adv1_pos_of_lt (st : T3St) (h : st.pos < st.input.length) :
    (adv1 st).pos = st.pos + 1 := by
  cases hc : charAt st.input st.pos with
  | none =>
    rw [charAt] at hc
    rw [List.get?_eq_none] at hc
    omega
  | some c => by_cases hn : c = '\n' <;> simp [adv1, hc, hn]

/-- When no remaining character satisfies the stop predicate, `readUntil`
consumes the entire rest of the input and returns it verbatim. -/
theorem readUntilGo_clean (p : Char → Bool) (fuel : Nat) :
    ∀ st : T3St, st.input.length - st.pos < fuel → st.pos ≤ st.input.length →
      (∀ c ∈ st.input.drop st.pos, p c = false) →
      (readUntilGo p fuel st).1 = st.input.drop st.pos ∧
      (readUntilGo p fuel st).2.input = st.input ∧
      (readUntilGo p fuel st).2.pos = st.input.length ∧
      (readUntilGo p fuel st).2.tokens = st.tokens ∧
      (readUntilGo p fuel st).2.errors = st.errors := by
  induction fuel with
  | zero => intro st h _; omega
  | succ n ih =>
    intro st hfuel hle hclean
    by_cases hlt : st.pos < st.input.length
    · have hget := charAt_lt st.input st.pos hlt
      have hdrop : st.input.drop st.pos =
          st.input.get ⟨st.pos, hlt⟩ :: st.input.drop (st.pos + 1) := by
        simpa using List.drop_eq_getElem_cons hlt
      have hpc : p (st.input.get ⟨st.pos, hlt⟩) = false := by
        apply hclean; rw [hdrop]; exact List.mem_cons_self _ _
      have hrec := ih (adv1 st)
        (by rw [adv1_input, adv1_pos_of_lt st hlt]; omega)
        (by rw [adv1_input, adv1_pos_of_lt st hlt]; omega)
        (by rw [adv1_input, adv1_pos_of_lt st hlt]; intro c hc; apply hclean
            rw [hdrop]; exact List.mem_cons_of_mem _ hc)
      rw [adv1_input, adv1_pos_of_lt st hlt, adv1_tokens, adv1_errors] at hrec
      simp only [readUntilGo, hget, hpc, Bool.false_eq_true, if_false]
      refine ⟨?_, hrec.2.1, hrec.2.2.1, hrec.2.2.2.1, hrec.2.2.2.2⟩
      rw [hdrop, hrec.1]
    · have hnone : charAt st.input st.pos = none := charAt_eq_none _ _ (by omega)
      simp only [readUntilGo, hnone]
      have hd : st.input.drop st.pos = [] := List.drop_eq_nil_of_le (by omega)
      exact ⟨by simp [hd], by simp, by omega, by simp, by simp⟩

/-- On input containing no `<`, with whitespace preservation on,
`processText` emits exactly one token spanning the whole remainder. -/
theorem processText_clean (opts : T3Options) (st : T3St)
    (hpw : opts.preserveWhitespace = true) (hle : st.pos ≤ st.input.length)
    (hclean : ∀ c ∈ st.input.drop st.pos, (c = '<' : Bool) = false) :
    (processText opts st).input = st.input ∧
    (processText opts st).pos = st.input.length ∧
    (processText opts st).tokens = st.tokens ++
      [{ type := HTokType.Text, content := st.input.drop st.pos,
         isWhitespace := ¬ jsHasNonWS (st.input.drop st.pos),
         start := st.pos, stop := st.input.length, line := st.line, col := st.col }] := by
  have h := readUntilGo_clean (fun c => c = '<') (st.input.length + 1 - st.pos) st
    (by omega) hle hclean
  obtain ⟨h1, h2, h3, h4, h5⟩ := h
  simp only [processText, readUntil, h1, hpw, pushTok]
  simp [h2, h3, h4]

/-- Claim C1, counterexample: on the input `<a>` the start-tag token's span
ends before the `>` terminator, so span concatenation drops it: the claimed
round-trip equality is false. -/
theorem C1_counterexample :
    spanConcat "<a>".toList (t3Tokenize "<a>".toList {}).tokens = "<a".toList ∧
    spanConcat "<a>".toList (t3Tokenize "<a>".toList {}).tokens ≠ "<a>".toList := by
  constructor
  · decide
  · decide

/-- Claim C1 (amended): the `>` that terminates a tag is consumed by
`skipUntil` after the tag token's span has been closed, so round-trip by
span concatenation fails as soon as the input contains a tag.  It does
hold on the tag-free fragment: for every input without `<` and with
whitespace preservation enabled, concatenating the token spans of
`tokenize` reproduces the input exactly. -/
theorem C1_roundtrip_tagfree (input : Str) (opts : T3Options)
    (hlt : '<' ∉ input) (hpw : opts.preserveWhitespace = true) :
    spanConcat input (t3Tokenize input opts).tokens = input := by
  by_cases hnil : input = []
  · subst hnil
    simp [t3Tokenize, tokenizeGo, t3Init, spanConcat, pushTok, strSlice]
  · have hlen : 0 < input.length := List.length_pos.2 hnil
    have hclean : ∀ c ∈ input.drop 0, (c = '<' : Bool) = false := by
      intro c hc
      simp only [List.drop_zero] at hc
      simp only [decide_eq_false_iff_not]
      intro he; exact hlt (he ▸ hc)
    have hPT := processText_clean opts (t3Init input) hpw (by simp [t3Init])
      (by simpa [t3Init] using hclean)
    have hfirst : charAt input 0 = some (input.get ⟨0, hlen⟩) := charAt_lt _ _ hlen
    have hfirstne : ¬ (charAt input 0 = some '<') := by
      rw [hfirst]
      intro h
      have : input.get ⟨0, hlen⟩ ∈ input := List.get_mem _ _ _
      exact hlt (by injection h with h'; exact h' ▸ this)
    -- unfold one loop iteration, then the loop terminates since pos = length
    obtain ⟨n, hn⟩ : ∃ n, input.length + 1 = n + 1 := ⟨input.length, rfl⟩
    have hrun : tokenizeGo opts (input.length + 1) (t3Init input) =
        tokenizeGo opts input.length (processText opts (t3Init input)) := by
      rw [hn]
      simp only [tokenizeGo, t3Init]
      rw [if_pos (by simpa [t3Init] using hlen), if_neg (by simpa [t3Init] using hfirstne)]
      have : input.length = n := by omega
      rw [this]
    have hstop : tokenizeGo opts input.length (processText opts (t3Init input)) =
        processText opts (t3Init input) := by
      cases hL : input.length with
      | zero => simp [tokenizeGo]
      | succ m =>
        simp only [tokenizeGo]
        rw [if_neg]
        rw [hPT.1, hPT.2.1]
        omega
    unfold t3Tokenize
    rw [hrun, hstop]
    simp only [pushTok]
    rw [hPT.2.2, hPT.2.1]
    simp only [t3Init]
    simp only [spanConcat, List.foldr_append, List.foldr_cons, List.foldr_nil,
      List.nil_append, strSlice, List.drop_zero, Nat.sub_zero, Nat.sub_self,
      List.take_zero, List.append_nil]
    simp [List.take_of_length_le]

/-- Witness for `C1_roundtrip_tagfree` at the concrete input `ab`. -/
theorem C1_roundtrip_tagfree_witness :
    spanConcat "ab".toList
      (t3Tokenize "ab".toList { preserveWhitespace := true }).tokens = "ab".toList :=
  C1_roundtrip_tagfree "ab".toList { preserveWhitespace := true }
    (by decide) (by decide)

/- ================================================================
   Claim C10: the scanner lower-cases tag names and attribute keys.
   ================================================================ -/

theorem charOfNat_toNat (n : Nat) (h : n < 55296) : (Char.ofNat n).toNat = n := by
  simp only [Char.ofNat, Nat.isValidChar, Char.ofNatAux, Char.toNat]
  rw [dif_pos (Or.inl h)]
  rfl

theorem jsCharLower_idem (c : Char) : jsCharLower (jsCharLower c) = jsCharLower c := by
  unfold jsCharLower
  by_cases h : 'A' ≤ c ∧ c ≤ 'Z'
  · rw [if_pos h, if_neg]
    intro h2
    obtain ⟨hA, hZ⟩ := h
    have hv2 : c.toNat ≤ 90 := by
      have := Char.le_def.1 hZ
      simpa [Char.toNat] using this
    have hvA : 65 ≤ c.toNat := by
      have := Char.le_def.1 hA
      simpa [Char.toNat] using this
    have htn : (Char.ofNat (c.toNat + 32)).toNat = c.toNat + 32 :=
      charOfNat_toNat _ (by omega)
    have h65 : 65 ≤ (Char.ofNat (c.toNat + 32)).toNat := by
      have := Char.le_def.1 h2.1
      simpa [Char.toNat] using this
    have h90 : (Char.ofNat (c.toNat + 32)).toNat ≤ 90 := by
      have := Char.le_def.1 h2.2
      simpa [Char.toNat] using this
    omega
  · rw [if_neg h, if_neg h]

theorem jsLower_idem (s : Str) : jsLower (jsLower s) = jsLower s := by
  simp [jsLower, List.map_map, Function.comp, jsCharLower_idem]

/-- A token is inertly lower-cased: start and end tags carry a lower-cased
name, and a start tag's attribute keys are all lower-cased. -/
def tokLowered (t : HTok) : Prop :=
  (t.type = HTokType.StartTag ∨ t.type = HTokType.EndTag) →
    jsLower t.name = t.name ∧ ∀ kv ∈ t.attrs, jsLower kv.1 = kv.1

def toksOK (l : List HTok) : Prop := ∀ t ∈ l, tokLowered t

theorem toksOK_append (l1 l2 : List HTok) (h1 : toksOK l1) (h2 : toksOK l2) :
    toksOK (l1 ++ l2) := by
  intro t ht
  rcases List.mem_append.1 ht with h | h
  · exact h1 t h
  · exact h2 t h

theorem advN_tokens (n : Nat) : ∀ st : T3St, (advN st n).tokens = st.tokens := by
  induction n with
  | zero => intro st; rfl
  | succ m ih => intro st; rw [advN, ih, adv1_tokens]

theorem skipUntilGo_tokens (s : Str) (fuel : Nat) :
    ∀ st : T3St, (skipUntilGo s fuel st).tokens = st.tokens := by
  induction fuel with
  | zero => intro st; rfl
  | succ m ih =>
    intro st
    rw [skipUntilGo]
    split
    · rw [ih, adv1_tokens]
    · rfl

theorem skipUntil_tokens (st : T3St) (s : Str) : (skipUntil st s).tokens = st.tokens := by
  rw [skipUntil]
  split
  · rw [advN_tokens, skipUntilGo_tokens]
  · rw [skipUntilGo_tokens]

theorem readUntilGo_tokens (p : Char → Bool) (fuel : Nat) :
    ∀ st : T3St, (readUntilGo p fuel st).2.tokens = st.tokens := by
  induction fuel with
  | zero => intro st; rfl
  | succ m ih =>
    intro st
    rw [readUntilGo]
    split
    · rfl
    · split
      · rfl
      · simp only [ih, adv1_tokens]

theorem readUntil_tokens (st : T3St) (p : Char → Bool) :
    (readUntil st p).2.tokens = st.tokens := readUntilGo_tokens p _ st

theorem skipWSGo_tokens (fuel : Nat) :
    ∀ st : T3St, (skipWSGo fuel st).tokens = st.tokens := by
  induction fuel with
  | zero => intro st; rfl
  | succ m ih =>
    intro st
    rw [skipWSGo]
    split
    · rfl
    · split
      · simp only [ih, adv1_tokens]
      · rfl

theorem skipWS_tokens (st : T3St) : (skipWS st).tokens = st.tokens := skipWSGo_tokens _ st

theorem readTagName_tokens (st : T3St) :
    (readTagName st).2.tokens = st.tokens := readUntil_tokens st _

theorem readAttributeName_tokens (st : T3St) :
    (readAttributeName st).2.tokens = st.tokens := readUntil_tokens st _

theorem readAttributeValue_tokens (st : T3St) :
    (readAttributeValue st).2.tokens = st.tokens := by
  rw [readAttributeValue]
  split
  · split
    · simp only [adv1_tokens, readUntil_tokens]
    · exact readUntil_tokens st _
  · exact readUntil_tokens st _

theorem readAttrsGo_tokens (fuel : Nat) :
    ∀ (st : T3St) (acc : List (Str × Str)), (readAttrsGo fuel st acc).2.tokens = st.tokens := by
  induction fuel with
  | zero => intro st acc; rfl
  | succ m ih =>
    intro st acc
    rw [readAttrsGo]
    split
    · dsimp only
      split
      · simp only [skipWS_tokens]
      · split
        · simp only [readAttributeName_tokens, skipWS_tokens]
        · split
          · simp only [ih, readAttributeValue_tokens, skipWS_tokens, adv1_tokens,
              readAttributeName_tokens]
          · simp only [ih, skipWS_tokens, readAttributeName_tokens]
    · rfl

theorem readAttributes_tokens (st : T3St) :
    (readAttributes st).2.tokens = st.tokens := readAttrsGo_tokens _ st []

/-- Keys inserted through `attributes.set(attributeName.toLowerCase(), ...)`
stay lower-cased. -/
theorem mapSet_keys_lowered (m : List (Str × Str)) (k v : Str)
    (hm : ∀ kv ∈ m, jsLower kv.1 = kv.1) (hk : jsLower k = k) :
    ∀ kv ∈ mapSet m k v, jsLower kv.1 = kv.1 := by
  induction m with
  | nil =>
    intro kv hkv
    rw [mapSet] at hkv
    rw [List.mem_singleton] at hkv
    rw [hkv]
    exact hk
  | cons hd tl ih =>
    intro kv hkv
    rw [mapSet] at hkv
    split at hkv
    · rcases List.mem_cons.1 hkv with h | h
      · rw [h]
        exact hk
      · exact hm kv (List.mem_cons_of_mem _ h)
    · rcases List.mem_cons.1 hkv with h | h
      · exact hm kv (h ▸ List.mem_cons_self _ _)
      · exact ih (fun kv2 hkv2 => hm kv2 (List.mem_cons_of_mem _ hkv2)) kv h

theorem readAttrsGo_keys (fuel : Nat) :
    ∀ (st : T3St) (acc : List (Str × Str)),
      (∀ kv ∈ acc, jsLower kv.1 = kv.1) →
      ∀ kv ∈ (readAttrsGo fuel st acc).1, jsLower kv.1 = kv.1 := by
  induction fuel with
  | zero => intro st acc hacc; exact hacc
  | succ m ih =>
    intro st acc hacc
    rw [readAttrsGo]
    split
    · dsimp only
      split
      · exact hacc
      · split
        · exact hacc
        · split
          · exact ih _ _ (mapSet_keys_lowered _ _ _ hacc (jsLower_idem _))
          · exact ih _ _ (mapSet_keys_lowered _ _ _ hacc (jsLower_idem _))
    · exact hacc

theorem readAttributes_keys (st : T3St) :
    ∀ kv ∈ (readAttributes st).1, jsLower kv.1 = kv.1 :=
  readAttrsGo_keys _ st [] (by intro kv h; cases h)

theorem pushTok_ok (st : T3St) (t : HTok) (hst : toksOK st.tokens) (ht : tokLowered t) :
    toksOK (pushTok st t).tokens := by
  rw [pushTok]
  exact toksOK_append _ _ hst (by intro u hu; rw [List.mem_singleton] at hu; rw [hu]; exact ht)

theorem commentScan_tokens (fuel : Nat) :
    ∀ st : T3St, (handleComment.commentScan fuel st).2.tokens = st.tokens := by
  induction fuel with
  | zero => intro st; rfl
  | succ m ih =>
    intro st
    rw [handleComment.commentScan]
    split
    · split
      · rfl
      · split
        · rfl
        · simp only [ih, adv1_tokens]
    · rfl

theorem cdataScan_tokens (fuel : Nat) :
    ∀ st : T3St, (cdataScan fuel st).2.tokens = st.tokens := by
  induction fuel with
  | zero => intro st; rfl
  | succ m ih =>
    intro st
    rw [cdataScan]
    split
    · split
      · rfl
      · split
        · rfl
        · simp only [ih, adv1_tokens]
    · rfl

theorem handleComment_ok (opts : T3Options) (st : T3St) (start sl sc : Nat)
    (hst : toksOK st.tokens) : toksOK (handleComment opts st start sl sc).tokens := by
  rw [handleComment]
  split
  · split <;>
    · apply pushTok_ok
      · rw [advN_tokens, commentScan_tokens]
        exact hst
      · intro h
        rcases h with h | h <;> simp at h
  · apply pushTok_ok
    · rw [advN_tokens, commentScan_tokens]
      exact hst
    · intro h
      rcases h with h | h <;> simp at h

theorem handleCDATA_ok (st : T3St) (start sl sc : Nat)
    (hst : toksOK st.tokens) : toksOK (handleCDATA st start sl sc).tokens := by
  rw [handleCDATA]
  apply pushTok_ok
  · rw [advN_tokens, cdataScan_tokens]
    exact hst
  · intro h
    rcases h with h | h <;> simp at h

theorem skipToGtGo_tokens (fuel : Nat) :
    ∀ st : T3St, (skipToGtGo fuel st).tokens = st.tokens := by
  induction fuel with
  | zero => intro st; rfl
  | succ m ih =>
    intro st
    rw [skipToGtGo]
    split
    · rw [ih, adv1_tokens]
    · rfl

theorem readQuotedId_tokens (st : T3St) : (readQuotedId st).2.tokens = st.tokens := by
  rw [readQuotedId]
  split
  · split
    · simp only [adv1_tokens, readUntil_tokens]
    · rfl
  · rfl

theorem doctypeNameRead_tokens (st1 : T3St) :
    (doctypeNameRead st1).2.tokens = st1.tokens := by
  rw [doctypeNameRead]
  split
  · simp only [readUntil_tokens]
  · rfl

theorem doctypeIds_tokens (st2 : T3St) : (doctypeIds st2).2.2.tokens = st2.tokens := by
  rw [doctypeIds]
  split
  · simp only [readQuotedId_tokens, skipWS_tokens, advN_tokens]
  · split
    · simp only [readQuotedId_tokens, skipWS_tokens, advN_tokens]
    · rfl

theorem handleDoctype_ok (st : T3St) (start sl sc : Nat)
    (hst : toksOK st.tokens) : toksOK (handleDoctype st start sl sc).tokens := by
  rw [handleDoctype]
  apply pushTok_ok
  · simp only [adv1_tokens, skipToGtGo_tokens, doctypeIds_tokens, skipWS_tokens,
      doctypeNameRead_tokens]
    exact hst
  · intro h
    rcases h with h | h <;> simp at h

theorem reportErr_tokens (st : T3St) (m : Str) (a b : Nat) :
    (reportErr st m a b).tokens = st.tokens := rfl

theorem processText_ok (opts : T3Options) (st : T3St)
    (hst : toksOK st.tokens) : toksOK (processText opts st).tokens := by
  rw [processText]
  split
  · apply pushTok_ok
    · simp only [readUntil_tokens]
      exact hst
    · intro h
      rcases h with h | h <;> simp at h
  · simp only [readUntil_tokens]
    exact hst

theorem processEndTagBody_ok (start sl sc : Nat) (st2 : T3St)
    (hst : toksOK st2.tokens) : toksOK (processEndTagBody start sl sc st2).tokens := by
  rw [processEndTagBody]
  split
  · apply pushTok_ok
    · simp only [readTagName_tokens]
      exact hst
    · intro _
      refine ⟨jsLower_idem _, ?_⟩
      intro kv hkv
      cases hkv
  · simp only [reportErr_tokens, readTagName_tokens]
    exact hst

theorem startTagSelfClose_tokens (tagName : Str) (st4 : T3St) :
    (startTagSelfClose tagName st4).2.tokens = st4.tokens := by
  rw [startTagSelfClose]
  split
  · simp only [adv1_tokens]
  · split <;> rfl

theorem processStartTagBody_ok (start sl sc : Nat) (st1 : T3St)
    (hst : toksOK st1.tokens) : toksOK (processStartTagBody start sl sc st1).tokens := by
  rw [processStartTagBody]
  split
  · apply pushTok_ok
    · simp only [startTagSelfClose_tokens, skipWS_tokens, readAttributes_tokens,
        readTagName_tokens]
      exact hst
    · intro _
      exact ⟨jsLower_idem _, readAttributes_keys _⟩
  · simp only [reportErr_tokens, readTagName_tokens]
    exact hst

theorem processTag_ok (opts : T3Options) (st : T3St)
    (hst : toksOK st.tokens) : toksOK (processTag opts st).tokens := by
  rw [processTag]
  split
  · intro t ht
    rw [skipUntil_tokens] at ht
    refine processEndTagBody_ok _ _ _ _ ?_ t ht
    simp only [adv1_tokens]
    exact hst
  · split
    · dsimp only
      split
      · apply handleComment_ok
        simp only [advN_tokens, adv1_tokens]
        exact hst
      · split
        · apply handleCDATA_ok
          simp only [advN_tokens, adv1_tokens]
          exact hst
        · split
          · apply handleDoctype_ok
            simp only [advN_tokens, adv1_tokens]
            exact hst
          · intro t ht
            rw [skipUntil_tokens, reportErr_tokens, adv1_tokens, adv1_tokens] at ht
            exact hst t ht
    · split
      · intro t ht
        rw [adv1_tokens, skipUntil_tokens, adv1_tokens, adv1_tokens] at ht
        exact hst t ht
      · intro t ht
        rw [skipUntil_tokens] at ht
        refine processStartTagBody_ok _ _ _ _ ?_ t ht
        simp only [adv1_tokens]
        exact hst

theorem tokenizeGo_ok (opts : T3Options) (fuel : Nat) :
    ∀ st : T3St, toksOK st.tokens → toksOK (tokenizeGo opts fuel st).tokens := by
  induction fuel with
  | zero => intro st h; exact h
  | succ m ih =>
    intro st h
    rw [tokenizeGo]
    split
    · split
      · exact ih _ (processTag_ok opts st h)
      · exact ih _ (processText_ok opts st h)
    · exact h

/-- Claim C10: every `StartTag` and `EndTag` token that part_003's
`tokenize` emits — for every input string and every option setting —
carries a fully lower-cased tag name, and every attribute key in a start
tag's attribute map is fully lower-cased, so case information is
discarded at the scanner stage. -/
theorem C10_scanner_lowercases (input : Str) (opts : T3Options) (t : HTok)
    (ht : t ∈ (t3Tokenize input opts).tokens)
    (hk : t.type = HTokType.StartTag ∨ t.type = HTokType.EndTag) :
    jsLower t.name = t.name ∧ ∀ kv ∈ t.attrs, jsLower kv.1 = kv.1 := by
  have hok : toksOK (t3Tokenize input opts).tokens := by
    rw [t3Tokenize]
    apply pushTok_ok
    · exact tokenizeGo_ok opts _ _ (by intro u hu; cases hu)
    · intro h
      rcases h with h | h <;> simp at h
  exact hok t ht hk

def c10tok : HTok :=
  ((t3Tokenize "<DIV Class='x'>ok</DIV>".toList {}).tokens).headD { type := HTokType.EOF }

/-- Witness for `C10_scanner_lowercases`: the start-tag token scanned from
`<DIV Class='x'>ok</DIV>` has name `div` and attribute key `class`. -/
theorem C10_scanner_lowercases_witness :
    jsLower c10tok.name = c10tok.name ∧ ∀ kv ∈ c10tok.attrs, jsLower kv.1 = kv.1 :=
  C10_scanner_lowercases "<DIV Class='x'>ok</DIV>".toList {} c10tok
    (by decide) (by decide)

/- ================================================================
   part_001 `StateMachineMinimizer` over the core `State`/`StateMachine`
   types of part_002, for claim C3.
   ================================================================ -/

/-- Generic JavaScript `Map.prototype.set` (replace in place or append). -/
def mSet {α : Type} (m : List (Str × α)) (k : Str) (v : α) : List (Str × α) :=
  match m with
  | [] => [(k, v)]
  | (k0, v0) :: rest => if k0 = k then (k, v) :: rest else (k0, v0) :: mSet rest k v

/-- Generic JavaScript `Map.prototype.get`. -/
def mGet {α : Type} (m : List (Str × α)) (k : Str) : Option α :=
  match m with
  | [] => none
  | (k0, v0) :: rest => if k0 = k then some v0 else mGet rest k

/-- Append `v` to the bucket of `k`, creating the bucket at the end when
missing (the `if (!map.has(k)) map.set(k, []); map.get(k).push(v)` idiom). -/
def mAppend {α : Type} (m : List (Str × List α)) (k : Str) (v : α) : List (Str × List α) :=
  match m with
  | [] => [(k, [v])]
  | (k0, vs) :: rest =>
    if k0 = k then (k0, vs ++ [v]) :: rest else (k0, vs) :: mAppend rest k v

/-- Lexicographic (code-unit) comparison, JavaScript's default string sort
order. -/
def strLe : Str → Str → Bool
  | [], _ => true
  | _ :: _, [] => false
  | a :: as, b :: bs => if a < b then true else if b < a then false else strLe as bs

def insertSorted (x : Str) : List Str → List Str
  | [] => [x]
  | y :: ys => if strLe x y then x :: y :: ys else y :: insertSorted x ys

/-- JavaScript `Array.prototype.sort()` on strings (default comparator). -/
def lexSort (l : List Str) : List Str := l.foldr insertSorted []

/-- Render a JavaScript number used in template strings (block indices may
be `-1` from `findIndex`). -/
def intToStr (i : Int) : Str :=
  if i < 0 then '-' :: natToStr i.natAbs else natToStr i.toNat

def joinWith (sep : Str) : List Str → Str
  | [] => []
  | [x] => x
  | x :: xs => x ++ sep ++ joinWith sep xs

/-- `State` of the core types (part_002): transitions and metadata are
insertion-ordered maps; metadata values are modelled as strings. -/
structure SMState where
  id : Str
  transitions : List (Str × Str)
  metadata : List (Str × Str)
  isAccepting : Bool
deriving DecidableEq

/-- `StateMachine` of the core types (part_002). -/
structure StateMachine where
  states : List (Str × SMState)
  initialState : Str
  currentState : Str
deriving DecidableEq

/-- `partition.findIndex(block => block.some(s => s.id === targetStateId))`. -/
def findBlockIdx (partition : List (List SMState)) (tgt : Str) : Int :=
  match partition.findIdx? (fun block => block.any (fun s => s.id = tgt)) with
  | some i => (i : Int)
  | none => -1

/-- `getStateSignature(state, partition)`. -/
def getStateSignature (state : SMState) (partition : List (List SMState)) : Str :=
  let transitions := state.transitions.map (fun st =>
    st.1 ++ ":".toList ++ intToStr (findBlockIdx partition st.2))
  let metadataKeys := lexSort (state.metadata.map (fun kv => kv.1))
  let metadataSignature := joinWith "|".toList
    (metadataKeys.map (fun k => k ++ ":".toList ++ ((mGet state.metadata k).getD [])))
  joinWith "|".toList (lexSort transitions ++ [metadataSignature])

/-- `getBlockSignature(block, partition)`: the first member's signature. -/
def getBlockSignature (block : List SMState) (partition : List (List SMState)) : Str :=
  match block with
  | [] => []
  | s :: _ => getStateSignature s partition

/-- `splitBlock(block, partition)`: group the block's members by signature
(insertion-ordered buckets). -/
def splitBlock (block : List SMState) (partition : List (List SMState)) : List (List SMState) :=
  if block.length ≤ 1 then [block]
  else
    (block.foldl (fun acc s => mAppend acc (getStateSignature s partition) s) []).map
      (fun kv => kv.2)

/-- The `while (changed)` refinement loop of `buildEquivalenceClasses`. -/
def refineLoop : Nat → List (List SMState) → List (List SMState)
  | 0, part => part
  | fuel + 1, part =>
    let changed := part.any (fun block => 1 < (splitBlock block part).length)
    if changed then
      refineLoop fuel (part.flatMap (fun block =>
        let splits := splitBlock block part
        if 1 < splits.length then splits else [block]))
    else part

/-- `buildEquivalenceClasses(states)`: refine the accepting/non-accepting
partition to a fixed point, then key the blocks by signature.  Note the
final `Map.set` keying: blocks whose signatures collide overwrite each
other. -/
def buildEquivalenceClasses (states : List SMState) : List (Str × List SMState) :=
  let accepting := states.filter (fun s => s.isAccepting)
  let nonAccepting := states.filter (fun s => ¬ s.isAccepting)
  let part0 := (if accepting.length ≠ 0 then [accepting] else []) ++
    (if nonAccepting.length ≠ 0 then [nonAccepting] else [])
  let pf := refineLoop (states.length + 1) part0
  pf.foldl (fun acc block =>
    if block.length ≠ 0 then mSet acc (getBlockSignature block pf) block else acc) []

/-- `mergeEquivalentStates(equivalenceClasses)`. -/
def mergeEquivalentStates (classes : List (Str × List SMState)) : StateMachine :=
  let minimizedStates := classes.foldl (fun acc kv =>
    match kv.2 with
    | [] => acc
    | rep :: _ =>
      mSet acc ("min_".toList ++ rep.id)
        { id := "min_".toList ++ rep.id, transitions := [],
          metadata := rep.metadata, isAccepting := rep.isAccepting }) []
  let stateMapping := classes.foldl (fun acc kv =>
    match kv.2 with
    | [] => acc
    | rep :: _ => kv.2.foldl (fun a s => mSet a s.id ("min_".toList ++ rep.id)) acc) []
  let finalStates := minimizedStates.map (fun mkv =>
    let origState :=
      match classes.find? (fun ckv =>
          match ckv.2 with
          | [] => false
          | s :: _ => s.id = mkv.1.drop 4) with
      | some ckv => ckv.2.head?
      | none => ((mGet classes []).getD []).head?
    match origState with
    | none => mkv
    | some o =>
      let newTr := o.transitions.foldl (fun acc t =>
        match mGet stateMapping t.2 with
        | some mt => mSet acc t.1 mt
        | none => acc) []
      (mkv.1, { mkv.2 with transitions := newTr }))
  let initialStateId :=
    match stateMapping.find? (fun kv => kv.1 = "initial".toList) with
    | some kv => kv.2
    | none =>
      match finalStates with
      | [] => []
      | f :: _ => f.1
  { states := finalStates, initialState := initialStateId, currentState := initialStateId }

def canCombineSymbols (symbols : List Str) : Bool :=
  symbols.all (fun s =>
    s.length = 1 ∨ (s.head? = some '[' ∧ s.getLast? = some ']'))

/-- `combineSymbols(symbols)`: collect the characters (deduplicated in
first-seen order), sort, and wrap in a character class. -/
def combineSymbols (symbols : List Str) : Str :=
  let chars := symbols.foldl (fun acc s =>
    if s.length = 1 then
      acc ++ (s.filter (fun c => ¬ acc.contains c))
    else
      (s.drop 1).dropLast.foldl (fun a c => if a.contains c then a else a ++ [c]) acc) []
  '[' :: (lexSort (chars.map (fun c => [c]))).flatten ++ "]".toList

/-- `optimizeTransitions(minimizedMachine)`. -/
def optimizeTransitions (m : StateMachine) : StateMachine :=
  { m with states := m.states.map (fun skv =>
      let byTarget := skv.2.transitions.foldl (fun acc t => mAppend acc t.2 t.1) []
      let newTrans := byTarget.foldl (fun acc tv =>
        match tv.2 with
        | [s] => mSet acc s tv.1
        | syms =>
          if canCombineSymbols syms then mSet acc (combineSymbols syms) tv.1
          else syms.foldl (fun a s => mSet a s tv.1) acc) []
      (skv.1, { skv.2 with transitions := newTrans })) }

/-- `StateMachineMinimizer.minimize(stateMachine)`. -/
def smMinimize (m : StateMachine) : StateMachine :=
  optimizeTransitions (mergeEquivalentStates
    (buildEquivalenceClasses (m.states.map (fun kv => kv.2))))

/-- Modelled from the spec: the repository has no runner for its
`StateMachine` values, so acceptance is the standard reading of the spec's
"accepts the same set of symbol sequences ... from its initial state":
follow the transition labelled by each symbol in turn (reject on a missing
transition or state) and accept exactly when the final state is accepting. -/
def acceptsFrom (m : StateMachine) : Str → List Str → Bool
  | id, [] =>
    match mGet m.states id with
    | some s => s.isAccepting
    | none => false
  | id, sym :: rest =>
    match mGet m.states id with
    | some s =>
      match mGet s.transitions sym with
      | some tgt => acceptsFrom m tgt rest
      | none => false
    | none => false

def accepts (m : StateMachine) (input : List Str) : Bool :=
  acceptsFrom m m.initialState input

/-- A two-state machine: the initial state `s0` is accepting, `s1` is not,
and there are no transitions.  Both singleton blocks get the empty
signature, so the second `Map.set` in `buildEquivalenceClasses` overwrites
the accepting class with the non-accepting one. -/
def cm3 : StateMachine :=
  { states :=
      [("s0".toList, { id := "s0".toList, transitions := [], metadata := [], isAccepting := true }),
       ("s1".toList, { id := "s1".toList, transitions := [], metadata := [], isAccepting := false })],
    initialState := "s0".toList, currentState := "s0".toList }

/-- Claim C3: minimization is not sound on the code.  On `cm3` the original
machine accepts the empty sequence (its initial state is accepting), but
the minimized machine consists of the single non-accepting state `min_s1`
and rejects it: the accepting block was lost to a signature collision in
`buildEquivalenceClasses`, and the initial state was re-seated arbitrarily
because `mergeEquivalentStates` only recognizes the literal id `initial`. -/
theorem C3_minimize_unsound :
    accepts cm3 [] = true ∧ accepts (smMinimize cm3) [] = false ∧
    (smMinimize cm3).states.map (fun kv => (kv.1, kv.2.isAccepting)) =
      [("min_s1".toList, false)] := by
  refine ⟨rfl, ?_, ?_⟩ <;> decide

/- ================================================================
   The single-pass pipeline tokenizer (html_tokenizer_implementation,
   the `HTMLTokenizer` that `HTMLCompiler` instantiates): scanner state
   is shared with the part_003 model (`T3St`); its error records reuse
   `TokErr` with the error offset stored in both `start` and `stop`.
   ================================================================ -/

/-- `HTMLTokenizerOptions` with the defaults the migration tokenizer and
`HTMLCompiler.compile` apply. -/
structure MOptions where
  preserveWhitespace : Bool := true
  includeComments : Bool := true
  includeConditionalComments : Bool := true
  strictMode : Bool := false
  errorRecovery : Bool := true
deriving DecidableEq

/-- `peek(offset)`: `\0` past the end. -/
def mPeek (st : T3St) (off : Nat) : Char :=
  (charAt st.input (st.pos + off)).getD '\x00'

/-- `previous()`. -/
def mPrevious (st : T3St) : Char :=
  (charAt st.input (st.pos - 1)).getD '\x00'

def mCheckFrom (st : T3St) : Str → Nat → Bool
  | [], _ => true
  | c :: cs, i => mPeek st i = c ∧ mCheckFrom st cs (i + 1)

/-- `checkString(str)`. -/
def mCheckStr (st : T3St) (s : Str) : Bool := mCheckFrom st s 0

def mCheckFromCI (st : T3St) : Str → Nat → Bool
  | [], _ => true
  | c :: cs, i => jsCharLower (mPeek st i) = jsCharLower c ∧ mCheckFromCI st cs (i + 1)

/-- `checkStringIgnoreCase(str)`. -/
def mCheckStrCI (st : T3St) (s : Str) : Bool := mCheckFromCI st s 0

/-- `match(expected)`: consume the expected string when it is next. -/
def mMatch (st : T3St) (s : Str) : Bool × T3St :=
  if mCheckStr st s then (true, advN st s.length) else (false, st)

/-- `matchIgnoreCase(expected)`. -/
def mMatchCI (st : T3St) (s : Str) : Bool × T3St :=
  if mCheckStrCI st s then (true, advN st s.length) else (false, st)

def mSkipUntilGo (target : Str) : Nat → T3St → T3St
  | 0, st => st
  | fuel + 1, st =>
    if st.pos < st.input.length ∧ ¬ mCheckStr st target then
      mSkipUntilGo target fuel (adv1 st)
    else st

/-- `skipUntil(target)`: unlike part_003's variant this stops in front of
the target without consuming it. -/
def mSkipUntil (st : T3St) (target : Str) : T3St :=
  mSkipUntilGo target (st.input.length + 1 - st.pos) st

/-- `reportError(message, position)`: offset recorded in `start`/`stop`. -/
def mReportErr (st : T3St) (msg : Str) (offset : Nat) : T3St :=
  { st with errors := st.errors ++
      [{ message := msg, severity := "error".toList, line := st.line, col := st.col,
         start := offset, stop := offset }] }

def mReadQuotedGo (q : Char) : Nat → T3St → Str × T3St
  | 0, st => ([], st)
  | fuel + 1, st =>
    if st.pos < st.input.length ∧ ¬ (mPeek st 0 = q) then
      if mPeek st 0 = '\\' then
        let st1 := adv1 st
        if st1.pos < st1.input.length then
          let c := mPeek st1 0
          let r := mReadQuotedGo q fuel (adv1 st1)
          (c :: r.1, r.2)
        else ([], st1)
      else
        let c := mPeek st 0
        let r := mReadQuotedGo q fuel (adv1 st)
        (c :: r.1, r.2)
    else ([], st)

/-- `readQuotedString()`: consumes the opening quote character (whatever
it is), reads to the matching quote with backslash escapes, and consumes
the closing quote or reports an unterminated string. -/
def mReadQuoted (st : T3St) : Str × T3St :=
  let q := mPeek st 0
  let st0 := adv1 st
  let r := mReadQuotedGo q (st0.input.length + 1 - st0.pos) st0
  if r.2.pos < r.2.input.length then (r.1, adv1 r.2)
  else (r.1, mReportErr r.2 "Unterminated quoted string".toList r.2.pos)

/-- `readTagName()` of the migration tokenizer: `[a-zA-Z0-9\-\_\:]` (no
dot, unlike part_003). -/
def mReadTagName (st : T3St) : Str × T3St :=
  readUntil st (fun c => ¬ (isAsciiAlpha c ∨ ('0' ≤ c ∧ c ≤ '9') ∨ c = '-' ∨ c = '_' ∨ c = ':'))

/-- `readIdentifier()`. -/
def mReadIdentifier (st : T3St) : Str × T3St :=
  readUntil st (fun c => ¬ (isAsciiAlpha c ∨ ('0' ≤ c ∧ c ≤ '9') ∨ c = '-' ∨ c = '_'))

/-- `readAttributeName()`. -/
def mReadAttributeName (st : T3St) : Str × T3St :=
  readUntil st (fun c => c = '=' ∨ c = '>' ∨ c = '/' ∨ jsIsWS c)

/-- `readAttributeValue()`. -/
def mReadAttributeValue (st : T3St) : Str × T3St :=
  let q := mPeek st 0
  if q = '"' ∨ q = '\'' then mReadQuoted st
  else readUntil st (fun c => jsIsWS c ∨ c = '>')

/-- The `readAttributes()` loop; attribute names are stored verbatim (no
lower-casing here, in contrast to part_003). -/
def mReadAttrsGo : Nat → T3St → List (Str × Str) → List (Str × Str) × T3St
  | 0, st, acc => (acc, st)
  | fuel + 1, st, acc =>
    if st.pos < st.input.length ∧ ¬ (mPeek st 0 = '>') ∧ ¬ (mPeek st 0 = '/') ∧
        ¬ mCheckStr st "?>".toList then
      let st1 := skipWS st
      if mPeek st1 0 = '>' ∨ mPeek st1 0 = '/' then (acc, st1)
      else
        let rn := mReadAttributeName st1
        let st2 := skipWS rn.2
        let rEq := mMatch st2 "=".toList
        if rEq.1 then
          let st3 := skipWS rEq.2
          let rv := mReadAttributeValue st3
          mReadAttrsGo fuel rv.2 (mapSet acc rn.1 rv.1)
        else mReadAttrsGo fuel rEq.2 (mapSet acc rn.1 [])
    else (acc, st)

def mReadAttributes (st : T3St) : List (Str × Str) × T3St :=
  mReadAttrsGo (st.input.length + 1 - st.pos) st []

/-- `handleStartTag()` (the `<` is already consumed). -/
def mHandleStartTag (opts : MOptions) (st : T3St) : T3St :=
  let start := st.pos - 1
  let rT := mReadTagName st
  let rA := mReadAttributes rT.2
  let st1 := skipWS rA.2
  let rSelf := mMatch st1 "/".toList
  let rGt := mMatch rSelf.2 ">".toList
  let st2 :=
    if rGt.1 then rGt.2
    else
      let stE := mReportErr rGt.2 "Expected \x22>\x22 after tag".toList rGt.2.pos
      if opts.errorRecovery then adv1 (mSkipUntil stE ">".toList) else stE
  pushTok st2
    { type := HTokType.StartTag, name := rT.1, attrs := rA.1, selfClosing := rSelf.1,
      start := start, stop := st2.pos, line := st2.line, col := st2.col,
      raw := strSlice st2.input start st2.pos }

/-- `handleEndTag()` (the `</` is already consumed). -/
def mHandleEndTag (opts : MOptions) (st : T3St) : T3St :=
  let start := st.pos - 2
  let rT := mReadTagName st
  let st1 := skipWS rT.2
  let rGt := mMatch st1 ">".toList
  let st2 :=
    if rGt.1 then rGt.2
    else
      let stE := mReportErr rGt.2 "Expected \x22>\x22 after end tag".toList rGt.2.pos
      if opts.errorRecovery then adv1 (mSkipUntil stE ">".toList) else stE
  pushTok st2
    { type := HTokType.EndTag, name := rT.1,
      start := start, stop := st2.pos, line := st2.line, col := st2.col,
      raw := strSlice st2.input start st2.pos }

/-- `handleText()` (the first character is already consumed). -/
def mHandleText (opts : MOptions) (st : T3St) : T3St :=
  let start := st.pos - 1
  let first := mPrevious st
  let r := readUntil st (fun c => c = '<')
  let content := first :: r.1
  let st1 := r.2
  let isWhitespace := content.all (fun c => jsIsWS c)
  if ¬ isWhitespace ∨ opts.preserveWhitespace then
    pushTok st1
      { type := HTokType.Text, content := content, isWhitespace := isWhitespace,
        start := start, stop := st1.pos, line := st1.line, col := st1.col, raw := content }
  else st1

/-- The `while (!isAtEnd() && !match(close))` scan loop shared by comments
and CDATA sections: the closing sequence is consumed by `match` when
found. -/
def mScanToClose (close : Str) : Nat → T3St → Str × T3St
  | 0, st => ([], st)
  | fuel + 1, st =>
    if st.pos < st.input.length then
      let rM := mMatch st close
      if rM.1 then ([], rM.2)
      else
        let c := mPeek st 0
        let r := mScanToClose close fuel (adv1 st)
        (c :: r.1, r.2)
    else ([], st)

/-- `handleComment()`. -/
def mHandleComment (opts : MOptions) (st : T3St) : T3St :=
  let start := st.pos - 3
  let r := mScanToClose "-->".toList (st.input.length + 1 - st.pos) st
  let st1 := r.2
  let st2 := if st1.pos < st1.input.length then st1
    else mReportErr st1 "Unterminated comment".toList start
  if opts.includeComments then
    pushTok st2
      { type := HTokType.Comment, tdata := r.1,
        start := start, stop := st2.pos, line := st2.line, col := st2.col,
        raw := strSlice st2.input start st2.pos }
  else st2

/-- `handleCDATA()`. -/
def mHandleCDATA (opts : MOptions) (st : T3St) : T3St :=
  let start := st.pos - 9
  let r := mScanToClose "]]>".toList (st.input.length + 1 - st.pos) st
  let st1 := r.2
  let st2 := if st1.pos < st1.input.length then st1
    else mReportErr st1 "Unterminated CDATA section".toList start
  pushTok st2
    { type := HTokType.CDATA, content := r.1,
      start := start, stop := st2.pos, line := st2.line, col := st2.col,
      raw := strSlice st2.input start st2.pos }

/-- `handleConditionalComment()`. -/
def mHandleConditionalComment (opts : MOptions) (st : T3St) : T3St :=
  if ¬ opts.includeConditionalComments then
    adv1 (mSkipUntil st "]>".toList)
  else
    let start := st.pos - 2
    let st1 := adv1 st
    let r := readUntil st1 (fun c => c = ']')
    let rM := mMatch r.2 "]>".toList
    if rM.1 then
      pushTok rM.2
        { type := HTokType.ConditionalComment, condition := r.1, content := [],
          start := start, stop := rM.2.pos, line := rM.2.line, col := rM.2.col,
          raw := strSlice rM.2.input start rM.2.pos }
    else rM.2

/-- `handleDoctype()` of the migration tokenizer (no `html` default, no
lower-casing). -/
def mHandleDoctype (opts : MOptions) (st : T3St) : T3St :=
  let start := st.pos - 9
  let rN := mReadIdentifier (skipWS st)
  let st1 := skipWS rN.2
  let rPub := mMatchCI st1 "PUBLIC".toList
  let ids :=
    if rPub.1 then
      let rP := mReadQuoted (skipWS rPub.2)
      let rS := mReadQuoted (skipWS rP.2)
      (some rP.1, some rS.1, rS.2)
    else
      let rSys := mMatchCI rPub.2 "SYSTEM".toList
      if rSys.1 then
        let rS := mReadQuoted (skipWS rSys.2)
        ((none : Option Str), some rS.1, rS.2)
      else ((none : Option Str), (none : Option Str), rSys.2)
  let st2 := skipWS ids.2.2
  let rGt := mMatch st2 ">".toList
  let st3 := if rGt.1 then rGt.2
    else mReportErr rGt.2 "Expected \x22>\x22 after DOCTYPE".toList rGt.2.pos
  pushTok st3
    { type := HTokType.Doctype, name := rN.1, publicId := ids.1, systemId := ids.2.1,
      start := start, stop := st3.pos, line := st3.line, col := st3.col,
      raw := strSlice st3.input start st3.pos }

/-- `handleInvalidMarkup()`. -/
def mHandleInvalidMarkup (opts : MOptions) (st : T3St) : T3St :=
  let stE := mReportErr st "Invalid markup sequence".toList st.pos
  if opts.errorRecovery then
    let st1 := mSkipUntil stE ">".toList
    if st1.pos < st1.input.length then adv1 st1 else st1
  else stE

/-- `handleLessThan()` (the `<` is already consumed). -/
def mHandleLessThan (opts : MOptions) (st : T3St) : T3St :=
  if mPeek st 0 = '!' then
    let st1 := adv1 st
    let rC := mMatch st1 "--".toList
    if rC.1 then mHandleComment opts rC.2
    else
      let rD := mMatch rC.2 "[CDATA[".toList
      if rD.1 then mHandleCDATA opts rD.2
      else
        let rT := mMatchCI rD.2 "DOCTYPE".toList
        if rT.1 then mHandleDoctype opts rT.2
        else if mPeek rT.2 0 = '[' then mHandleConditionalComment opts rT.2
        else mHandleInvalidMarkup opts rT.2
  else if mPeek st 0 = '/' then
    mHandleEndTag opts (adv1 st)
  else if isAsciiAlpha (mPeek st 0) ∨ mPeek st 0 = '_' then
    mHandleStartTag opts st
  else mHandleText opts st

/-- `scanToken()`. -/
def mScanToken (opts : MOptions) (st : T3St) : T3St :=
  let c := mPeek st 0
  let st1 := adv1 st
  if c = '<' then mHandleLessThan opts st1 else mHandleText opts st1

def mTokenizeGo (opts : MOptions) : Nat → T3St → T3St
  | 0, st => st
  | fuel + 1, st =>
    if st.pos < st.input.length then mTokenizeGo opts fuel (mScanToken opts st)
    else st

/-- The migration tokenizer's `tokenize(input)` (processing-time and
memory-estimate metadata omitted). -/
def mTokenize (input : Str) (opts : MOptions) : T3St :=
  let st := mTokenizeGo opts (input.length + 1) (t3Init input)
  pushTok st
    { type := HTokType.EOF, start := st.pos, stop := st.pos, line := st.line, col := st.col }

/- ================================================================
   part_004 `HTMLParser`: single-pass tree building over an explicit
   open-element stack.
   ================================================================ -/

inductive NType where
  | Document | Element | Text | Comment | Doctype | CDATA
deriving DecidableEq

def typeStr : NType → Str
  | NType.Document => "Document".toList
  | NType.Element => "Element".toList
  | NType.Text => "Text".toList
  | NType.Comment => "Comment".toList
  | NType.Doctype => "Doctype".toList
  | NType.CDATA => "CDATA".toList

/-- The shallow (non-recursive) payload of an `HTMLASTNode`; the fields a
given node kind does not use keep their defaults.  Node ids are the
deterministic counter values standing in for `generateNodeId()`'s opaque
unique strings (reference identity of nodes is id equality). -/
structure PData where
  id : Nat
  ntype : NType
  tagName : Str := []
  attrs : List (Str × Str) := []
  selfClosing : Bool := false
  content : Str := []
  isWhitespace : Bool := false
  pdata : Str := []
  dname : Str := []
  publicId : Option Str := none
  systemId : Option Str := none
  eqClass : Str := []
  pmeta : List (Str × Str) := []
deriving DecidableEq

/-- An `HTMLASTNode` tree: payload, the document's `doctype` slot (a
childless doctype node), the document's `documentElement` back-reference
(modelled by the referenced element's id), and the ordered children.
The `parent` back-reference is dropped: every read of it in the sources
is on an unreachable path. -/
inductive PNode where
  | mk (pd : PData) (doctype : Option PData) (docElem : Option Nat) (children : List PNode)

def PNode.pd : PNode → PData
  | .mk d _ _ _ => d

def PNode.doctype : PNode → Option PData
  | .mk _ dt _ _ => dt

def PNode.docElem : PNode → Option Nat
  | .mk _ _ de _ => de

def PNode.children : PNode → List PNode
  | .mk _ _ _ cs => cs

mutual
def pnodeBeq : PNode → PNode → Bool
  | .mk d1 dt1 de1 cs1, .mk d2 dt2 de2 cs2 =>
    d1 = d2 ∧ dt1 = dt2 ∧ de1 = de2 ∧ pnodeListBeq cs1 cs2
def pnodeListBeq : List PNode → List PNode → Bool
  | [], [] => true
  | a :: as, b :: bs => pnodeBeq a b ∧ pnodeListBeq as bs
  | _, _ => false
end

/-- `computeEquivalenceClass(nodeType, tagName?)`. -/
def computeEquivalenceClass (t : NType) (tagName : Option Str) : Str :=
  joinWith ":".toList ([typeStr t] ++
    match tagName with
    | some n => if n = [] then [] else [jsLower n]
    | none => [])

/-- The parser options record; `preserveWhitespace` is not part of
`HTMLParserOptions` but reaches the parser at runtime through the option
spreading in the constructor and in `HTMLCompiler.compile` — the parser
never reads it. -/
structure POptions where
  allowSelfClosingTags : Bool := true
  strictNesting : Bool := false
  preserveCase : Bool := false
  errorRecovery : Bool := true
  stateMinimization : Bool := true
  preserveWhitespace : Bool := false
deriving DecidableEq

structure PErr where
  message : Str
  line : Nat
  col : Nat
  offset : Nat
  severity : Str
deriving DecidableEq

/-- An open element on the parser's node stack, with the children
accumulated so far (the in-place `appendChild` mutations of the source). -/
structure PFrame where
  fdata : PData
  fdoctype : Option PData
  fchildren : List PNode

structure ParseSt where
  frames : List PFrame
  errors : List PErr
  cnt : Nat

def frameToNode (f : PFrame) : PNode :=
  PNode.mk f.fdata f.fdoctype none f.fchildren

/-- Append a completed node to the current node (the top of the stack). -/
def appendToTop (st : ParseSt) (n : PNode) : ParseSt :=
  match st.frames with
  | [] => st
  | top :: rest => { st with frames := { top with fchildren := top.fchildren ++ [n] } :: rest }

/-- Close the top stack entry into its parent's child list. -/
def sealTop (st : ParseSt) : ParseSt :=
  match st.frames with
  | top :: parent :: rest =>
    { st with frames :=
        { parent with fchildren := parent.fchildren ++ [frameToNode top] } :: rest }
  | _ => st

def sealN : Nat → ParseSt → ParseSt
  | 0, st => st
  | n + 1, st => sealN n (sealTop st)

/-- `createElement(name, attributes, selfClosing)`. -/
def createElement (opts : POptions) (cnt : Nat) (name : Str) (attrs : List (Str × Str))
    (selfClosing : Bool) : PData :=
  { id := cnt, ntype := NType.Element,
    tagName := if opts.preserveCase then name else jsLower name,
    attrs := attrs, selfClosing := selfClosing,
    eqClass := computeEquivalenceClass NType.Element (some name) }

/-- `handleStartTag`: append the element to the current node; push it
unless self-closing. -/
def handleStartTag (opts : POptions) (tok : HTok) (st : ParseSt) : ParseSt :=
  let elem := createElement opts st.cnt tok.name tok.attrs tok.selfClosing
  let st1 := { st with cnt := st.cnt + 1 }
  if tok.selfClosing then appendToTop st1 (PNode.mk elem none none [])
  else { st1 with frames := { fdata := elem, fdoctype := none, fchildren := [] } :: st1.frames }

/-- `handleEndTag`: scan the stack top-down for a matching element and pop
through it; with `strictNesting` an end tag with no match anywhere in the
stack throws. -/
def handleEndTag (opts : POptions) (tok : HTok) (st : ParseSt) : Except Str ParseSt :=
  match st.frames.findIdx? (fun f =>
      f.fdata.ntype = NType.Element ∧ jsLower f.fdata.tagName = jsLower tok.name) with
  | none =>
    if opts.strictNesting then Except.error ("Unmatched end tag: ".toList ++ tok.name)
    else Except.ok st
  | some k => Except.ok (sealN (k + 1) st)

/-- `handleTextToken`: note the guard reads `options.preserveCase`, not a
whitespace-preservation option. -/
def handleTextToken (opts : POptions) (tok : HTok) (st : ParseSt) : ParseSt :=
  if ¬ tok.isWhitespace ∨ opts.preserveCase then
    let d : PData :=
      { id := st.cnt, ntype := NType.Text, content := tok.content,
        isWhitespace := tok.isWhitespace,
        eqClass := computeEquivalenceClass NType.Text none }
    appendToTop { st with cnt := st.cnt + 1 } (PNode.mk d none none [])
  else st

def handleCommentToken (tok : HTok) (st : ParseSt) : ParseSt :=
  let d : PData :=
    { id := st.cnt, ntype := NType.Comment, pdata := tok.tdata,
      eqClass := computeEquivalenceClass NType.Comment none }
  appendToTop { st with cnt := st.cnt + 1 } (PNode.mk d none none [])

/-- `handleDoctypeToken`: only takes effect when the current node is the
document. -/
def handleDoctypeToken (tok : HTok) (st : ParseSt) : ParseSt :=
  match st.frames with
  | top :: rest =>
    if top.fdata.ntype = NType.Document then
      let d : PData :=
        { id := st.cnt, ntype := NType.Doctype, dname := tok.name,
          publicId := tok.publicId, systemId := tok.systemId,
          eqClass := computeEquivalenceClass NType.Doctype none }
      { st with frames := { top with fdoctype := some d } :: rest, cnt := st.cnt + 1 }
    else st
  | [] => st

def handleCDATAToken (tok : HTok) (st : ParseSt) : ParseSt :=
  let d : PData :=
    { id := st.cnt, ntype := NType.CDATA, content := tok.content,
      eqClass := computeEquivalenceClass NType.CDATA none }
  appendToTop { st with cnt := st.cnt + 1 } (PNode.mk d none none [])

/-- `handleEOFToken`: with `strictNesting`, unclosed tags throw. -/
def handleEOFToken (opts : POptions) (st : ParseSt) : Except Str ParseSt :=
  if 1 < st.frames.length ∧ opts.strictNesting then
    Except.error "Unclosed tags".toList
  else Except.ok st

/-- `processTokenWithOptimizedState`: dispatch on the token kind. -/
def processToken (opts : POptions) (tok : HTok) (st : ParseSt) : Except Str ParseSt :=
  match tok.type with
  | HTokType.StartTag => Except.ok (handleStartTag opts tok st)
  | HTokType.EndTag => handleEndTag opts tok st
  | HTokType.Text => Except.ok (handleTextToken opts tok st)
  | HTokType.Comment => Except.ok (handleCommentToken tok st)
  | HTokType.Doctype => Except.ok (handleDoctypeToken tok st)
  | HTokType.CDATA => Except.ok (handleCDATAToken tok st)
  | HTokType.EOF => handleEOFToken opts st
  | HTokType.ConditionalComment =>
    Except.error "Unsupported token type".toList

/-- The per-token loop of `parse`: a thrown error is caught, logged to the
console only (it is **not** added to the returned diagnostics), and stops
the loop only when `errorRecovery` is off. -/
def parseLoop (opts : POptions) : List HTok → ParseSt → ParseSt
  | [], st => st
  | tok :: rest, st =>
    match processToken opts tok st with
    | Except.ok st' => parseLoop opts rest st'
    | Except.error _ => if opts.errorRecovery then parseLoop opts rest st else st

/-- `validateDocumentStructure`: record an error for every root element
beyond the first and point `documentElement` at the last element child. -/
def validateDoc (doc : PNode) : PNode × List PErr :=
  let elems := doc.children.filter (fun c => c.pd.ntype = NType.Element)
  let errs := (elems.drop 1).map (fun _ =>
    ({ message := "Multiple root elements found".toList, line := 0, col := 0,
       offset := 0, severity := "error".toList } : PErr))
  (PNode.mk doc.pd doc.doctype ((elems.getLast?).map (fun e => e.pd.id)) doc.children, errs)

structure ParseResult where
  ast : PNode
  errors : List PErr

/-- `HTMLParser.parse(tokens)` (node-count and timing metadata omitted;
the parser-state minimization pass only feeds those metadata fields). -/
def htmlParse (opts : POptions) (tokens : List HTok) : ParseResult :=
  let d0 : PData :=
    { id := 0, ntype := NType.Document,
      eqClass := computeEquivalenceClass NType.Document none }
  let st0 : ParseSt :=
    { frames := [{ fdata := d0, fdoctype := none, fchildren := [] }],
      errors := [], cnt := 1 }
  let stF := parseLoop opts tokens st0
  let sealed := sealN (stF.frames.length - 1) stF
  let doc := match sealed.frames with
    | f :: _ => frameToNode f
    | [] => PNode.mk { id := 0, ntype := NType.Document } none none []
  let vd := validateDoc doc
  { ast := vd.1, errors := sealed.errors ++ vd.2 }

/- ================================================================
   Claims C6 and C7: parser end-tag and text-token behavior.
   ================================================================ -/

def nullPNode : PNode := PNode.mk { id := 0, ntype := NType.Document } none none []

/-- The token stream of `<div><span></div>` from the pipeline tokenizer. -/
def c6toks : List HTok := (mTokenize "<div><span></div>".toList {}).tokens

/-- Claim C6, counterexample: with `strictNesting` enabled, parsing
`<div><span></div>` does **not** raise an unmatched-end-tag diagnostic and
does not abort — it produces exactly the tolerant-mode tree with an empty
diagnostics list, because `handleEndTag` only rejects an end tag whose
name matches no open element anywhere on the stack, and `</div>` matches
the open `div`. -/
theorem C6_counterexample :
    pnodeBeq (htmlParse { strictNesting := true } c6toks).ast (htmlParse {} c6toks).ast
      = true ∧
    (htmlParse { strictNesting := true } c6toks).errors = [] := by
  constructor
  · decide
  · decide

/-- Claim C6 (amended): in tolerant mode (the default), `<div><span></div>`
yields a tree in which `span` is closed implicitly by `div`'s close tag
(the document's only child is `div`, whose only child is `span`) with no
fatal error; with `strictNesting` enabled the result is identical — no
diagnostic and no abort — since strict mode only rejects end tags with no
matching open element on the stack. -/
theorem C6_div_span_unmatched :
    ((htmlParse {} c6toks).ast.children.map (fun c => c.pd.tagName)) = ["div".toList] ∧
    (((htmlParse {} c6toks).ast.children.headD nullPNode).children.map
      (fun c => c.pd.tagName)) = ["span".toList] ∧
    (((htmlParse {} c6toks).ast.children.headD nullPNode).children.headD
      nullPNode).children.length = 0 ∧
    (htmlParse {} c6toks).errors = [] ∧
    pnodeBeq (htmlParse { strictNesting := true } c6toks).ast (htmlParse {} c6toks).ast
      = true ∧
    (htmlParse { strictNesting := true } c6toks).errors = [] := by
  refine ⟨?_, ?_, ?_, ?_, ?_, ?_⟩ <;> decide

def c7wsTok : HTok := { type := HTokType.Text, content := " ".toList, isWhitespace := true }

def c7eofTok : HTok := { type := HTokType.EOF }

/-- Claim C7: `handleTextToken` keys whitespace retention off the
case-preservation option `preserveCase` instead of whitespace
preservation.  With whitespace preservation disabled and `preserveCase`
enabled, a purely-whitespace text token is appended (the claim requires it
dropped); with whitespace preservation enabled and `preserveCase`
disabled, it is dropped (the claim requires it appended). -/
theorem C7_whitespace_keyed_on_preserveCase :
    ((htmlParse { preserveCase := true, preserveWhitespace := false }
        [c7wsTok, c7eofTok]).ast.children.map
      (fun c => (c.pd.ntype, c.pd.content))) = [(NType.Text, " ".toList)] ∧
    ((htmlParse { preserveCase := false, preserveWhitespace := true }
        [c7wsTok, c7eofTok]).ast.children.map (fun c => c.pd.ntype)) = [] := by
  constructor
  · decide
  · decide

/- ================================================================
   part_005 `HTMLASTBuilder`: signature classing, representative
   substitution, text merging, attribute stripping.
   ================================================================ -/

def boolStr (b : Bool) : Str := if b then "true".toList else "false".toList

/-- One pass of a JavaScript `replace(/run+/g, rep)`: every maximal run of
characters matching `p` becomes one copy of `rep`. -/
def replaceRunsGo (p : Char → Bool) (rep : Str) : List Char → Bool → Str
  | [], _ => []
  | c :: cs, inRun =>
    if p c then
      if inRun then replaceRunsGo p rep cs true
      else rep ++ replaceRunsGo p rep cs true
    else c :: replaceRunsGo p rep cs false

def replaceRuns (p : Char → Bool) (rep : Str) (s : Str) : Str :=
  replaceRunsGo p rep s false

/-- `generateContentPattern(content)`: digits, then letters, then
whitespace are abstracted in three sequential passes (so `1a` becomes
`WORD`: `NUM` is itself letters), truncated to 50 characters. -/
def generateContentPattern (content : Str) : Str :=
  (replaceRuns (fun c => jsIsWS c) "SPACE".toList
    (replaceRuns (fun c => isAsciiAlpha c) "WORD".toList
      (replaceRuns (fun c => '0' ≤ c ∧ c ≤ '9') "NUM".toList content))).take 50

/-- Stable insertion sort of attribute entries by key (the
`localeCompare` comparator, which coincides with code-unit order on the
ASCII keys this code handles). -/
def insertAttrSorted (x : Str × Str) : List (Str × Str) → List (Str × Str)
  | [] => [x]
  | y :: ys => if strLe x.1 y.1 then x :: y :: ys else y :: insertAttrSorted x ys

def sortAttrs (l : List (Str × Str)) : List (Str × Str) := l.foldr insertAttrSorted []

/-- `computeStructuralSignature(node)`. -/
def computeStructuralSignature (children : List PNode) : Str :=
  "children:[".toList ++
    joinWith ",".toList (lexSort (children.map (fun c => typeStr c.pd.ntype))) ++ "]".toList

/-- `computeNodeSignature(node)`. -/
def computeNodeSignature (node : PNode) : Str :=
  let d := node.pd
  let specific : List Str :=
    match d.ntype with
    | NType.Element =>
      [d.tagName] ++
      (if d.attrs.length ≠ 0 then
        ["attrs:[".toList ++
          joinWith ",".toList ((sortAttrs d.attrs).map (fun kv => kv.1 ++ "=".toList ++ kv.2)) ++
          "]".toList]
      else []) ++
      ["selfClosing:".toList ++ boolStr d.selfClosing]
    | NType.Text =>
      ["isWhitespace:".toList ++ boolStr d.isWhitespace] ++
      (if ¬ d.isWhitespace then ["pattern:".toList ++ generateContentPattern d.content] else [])
    | NType.Comment => ["dataLength:".toList ++ natToStr d.pdata.length]
    | _ => []
  joinWith "|".toList ([typeStr d.ntype] ++ specific ++
    ["structure:".toList ++ computeStructuralSignature node.children])

/-- `estimateNodeMemory(node)`. -/
def estimateNodeMemory (node : PNode) : Nat :=
  100 +
    match node.pd.ntype with
    | NType.Element =>
      node.pd.tagName.length * 2 +
        (node.pd.attrs.map (fun kv => (kv.1.length + kv.2.length) * 2)).sum
    | NType.Text => node.pd.content.length * 2
    | NType.Comment => node.pd.pdata.length * 2
    | _ => 0

mutual
/-- `traverseForClassification`: pre-order insertion of every node into
the bucket of its signature (the nodeSignatures id map is never read and
is omitted). -/
def classify (acc : List (Str × List PNode)) : PNode → List (Str × List PNode)
  | PNode.mk d dt de cs =>
    classifyList (mAppend acc (computeNodeSignature (PNode.mk d dt de cs)) (PNode.mk d dt de cs)) cs
def classifyList (acc : List (Str × List PNode)) : List PNode → List (Str × List PNode)
  | [] => acc
  | c :: cs => classifyList (classify acc c) cs
end

/-- An `EquivalenceClass` (its `class_i` id string has no behavioral
role). -/
structure EqCls where
  nodes : List PNode
  rep : PNode

/-- `selectRepresentative(nodes)`: strict-minimum memory estimate, first
member winning ties. -/
def selectRepresentative (nodes : List PNode) : PNode :=
  match nodes with
  | [] => nullPNode
  | n :: rest =>
    (rest.foldl (fun acc m =>
      if estimateNodeMemory m < acc.2 then (m, estimateNodeMemory m) else acc)
      (n, estimateNodeMemory n)).1

/-- `buildStateClasses`: only multi-member signature groups become
equivalence classes. -/
def buildEnv (ast : PNode) : List (Str × EqCls) :=
  (classify [] ast).foldl (fun acc kv =>
    if 1 < kv.2.length then
      mSet acc kv.1 { nodes := kv.2, rep := selectRepresentative kv.2 }
    else acc) []

/-- `cloneNode(node)`: a shallow clone with empty children; only the
type-specific fields the source's switch lists are carried over (a CDATA
or doctype node, having no case, loses its payload), and a document clone
drops its `documentElement`. -/
def cloneNode (n : PNode) : PNode :=
  let d := n.pd
  let base : PData := { id := d.id, ntype := d.ntype, eqClass := d.eqClass, pmeta := d.pmeta }
  match d.ntype with
  | NType.Element =>
    PNode.mk { base with tagName := d.tagName, attrs := d.attrs, selfClosing := d.selfClosing }
      none none []
  | NType.Text =>
    PNode.mk { base with content := d.content, isWhitespace := d.isWhitespace } none none []
  | NType.Comment => PNode.mk { base with pdata := d.pdata } none none []
  | NType.Document => PNode.mk base n.doctype none []
  | _ => PNode.mk base none none []

def pnodeSetId (n : PNode) (i : Nat) : PNode :=
  match n with
  | PNode.mk d dt de cs => PNode.mk { d with id := i } dt de cs

def pnodeSetChildren (n : PNode) (cs : List PNode) : PNode :=
  match n with
  | PNode.mk d dt de _ => PNode.mk d dt de cs

def pnodeSetContent (n : PNode) (c : Str) : PNode :=
  match n with
  | PNode.mk d dt de cs => PNode.mk { d with content := c } dt de cs

/-- `mergeAdjacentTextNodes(children)` of part_005: runs of text nodes
with equal `isWhitespace` collapse into a clone of the run's first node
carrying the concatenated content (the clone's children are empty — the
source clones before re-attaching and never re-attaches). -/
def mergeATNGo : Option (PNode × Str) → List PNode → List PNode
  | cur, [] =>
    (match cur with
     | some nc => [pnodeSetContent nc.1 nc.2]
     | none => [])
  | cur, c :: cs =>
    if c.pd.ntype = NType.Text then
      match cur with
      | some nc =>
        if nc.1.pd.isWhitespace = c.pd.isWhitespace then
          mergeATNGo (some (nc.1, nc.2 ++ c.pd.content)) cs
        else
          pnodeSetContent nc.1 nc.2 :: mergeATNGo (some (cloneNode c, c.pd.content)) cs
      | none => mergeATNGo (some (cloneNode c, c.pd.content)) cs
    else
      (match cur with
       | some nc => [pnodeSetContent nc.1 nc.2]
       | none => []) ++ c :: mergeATNGo none cs

def mergeAdjacentTextNodes (children : List PNode) : List PNode :=
  mergeATNGo none children

mutual
/-- `optimizeNode(node)`: nodes of a multi-member class that are not the
representative are replaced by a clone of the representative (keeping the
original id); children are always recursively optimized from the original
node, then adjacent text nodes merged.  The WeakMap cache is omitted: in
a tree no node object is visited twice, so it never hits. -/
def optimizeNode (env : List (Str × EqCls)) : PNode → PNode
  | PNode.mk d dt de cs =>
    let node := PNode.mk d dt de cs
    let shallow :=
      match mGet env (computeNodeSignature node) with
      | some cls =>
        if cls.nodes.any (fun n => n.pd.id = d.id) ∧ ¬ (cls.rep.pd.id = d.id) then
          pnodeSetId (cloneNode cls.rep) d.id
        else cloneNode node
      | none => cloneNode node
    pnodeSetChildren shallow (mergeAdjacentTextNodes (optimizeList env cs))
def optimizeList (env : List (Str × EqCls)) : List PNode → List PNode
  | [] => []
  | c :: cs => optimizeNode env c :: optimizeList env cs
end

/-- `isDefaultAttributeValue(tagName, attribute, value)`. -/
def isDefaultAttributeValue (tagName attr v : Str) : Bool :=
  (tagName = "input".toList ∧ attr = "type".toList ∧ v = "text".toList) ∨
  (tagName = "button".toList ∧ attr = "type".toList ∧ v = "button".toList) ∨
  (tagName = "script".toList ∧ attr = "type".toList ∧ v = "text/javascript".toList)

mutual
/-- `applyMemoryOptimizations`: drop default-valued attributes on
elements (string interning is the identity in the source). -/
def applyMemOpt : PNode → PNode
  | PNode.mk d dt de cs =>
    let d' :=
      if d.ntype = NType.Element then
        { d with attrs := d.attrs.filter (fun kv => ¬ isDefaultAttributeValue d.tagName kv.1 kv.2) }
      else d
    PNode.mk d' dt de (applyMemOptList cs)
def applyMemOptList : List PNode → List PNode
  | [] => []
  | c :: cs => applyMemOpt c :: applyMemOptList cs
end

/-- `buildOptimizedAST(parserResult, optimize)` restricted to its tree
argument. -/
def buildOptimizedAST (ast : PNode) (optimize : Bool) : PNode :=
  if ¬ optimize then ast
  else applyMemOpt (optimizeNode (buildEnv ast) ast)

/-- `getEssentialAttributes(element)`. -/
def getEssentialAttributes (d : PData) : List (Str × Str) :=
  d.attrs.filter (fun kv => ¬ isDefaultAttributeValue d.tagName kv.1 kv.2)

mutual
/-- part_005 `validateBehavioralEquivalence(original, optimized)`. -/
def vbe : PNode → PNode → Bool
  | PNode.mk d1 dt1 de1 cs1, PNode.mk d2 dt2 de2 cs2 =>
    decide (d1.ntype = d2.ntype) && decide (cs1.length = cs2.length) &&
    (match d1.ntype with
     | NType.Element =>
       (decide (d1.tagName = d2.tagName) &&
        decide ((getEssentialAttributes d1).length = (getEssentialAttributes d2).length) &&
        (getEssentialAttributes d1).all (fun kv =>
          decide (mGet (getEssentialAttributes d2) kv.1 = some kv.2)))
     | NType.Text => decide (d1.content = d2.content) && decide (d1.isWhitespace = d2.isWhitespace)
     | _ => true) &&
    vbeList cs1 cs2
def vbeList : List PNode → List PNode → Bool
  | [], [] => true
  | a :: as, b :: bs => vbe a b ∧ vbeList as bs
  | _, _ => false
end

/- ================================================================
   `HTMLCompiler.compile` (part_004, first section): the single-pass
   pipeline with behavioral validation.
   ================================================================ -/

/-- `HTMLCompilationOptions` with `compile`'s defaults. -/
structure COptions where
  preserveWhitespace : Bool := true
  includeComments : Bool := true
  includeConditionalComments : Bool := true
  strictMode : Bool := false
  errorRecovery : Bool := true
  allowSelfClosingTags : Bool := true
  strictNesting : Bool := false
  preserveCase : Bool := false
  stateMinimization : Bool := true
  optimizeAST : Bool := true
  validateBehavior : Bool := true
  generateSourceMap : Bool := false
deriving DecidableEq

/-- The compilation result (the source concatenates tokenizer and parser
errors into one array; they are kept in two typed lists here; the
performance metadata is omitted). -/
structure CompileResult where
  ast : PNode
  tokens : List HTok
  tokErrors : List TokErr
  parseErrors : List PErr

def exceptIsOk {ε α : Type} : Except ε α → Bool
  | Except.ok _ => true
  | Except.error _ => false

/-- `HTMLCompiler.compile(input, options)`: tokenize, parse, build the
optimized AST, and — when `validateBehavior` is on — throw when the
minimization report finds the trees behaviorally inequivalent. -/
def htmlCompile (input : Str) (o : COptions) : Except Str CompileResult :=
  let tokSt := mTokenize input
    { preserveWhitespace := o.preserveWhitespace, includeComments := o.includeComments,
      includeConditionalComments := o.includeConditionalComments,
      strictMode := o.strictMode, errorRecovery := o.errorRecovery }
  let parseRes := htmlParse
    { allowSelfClosingTags := o.allowSelfClosingTags, strictNesting := o.strictNesting,
      preserveCase := o.preserveCase, errorRecovery := o.errorRecovery,
      stateMinimization := o.stateMinimization,
      preserveWhitespace := o.preserveWhitespace } tokSt.tokens
  let optimizedAST := buildOptimizedAST parseRes.ast o.optimizeAST
  if o.validateBehavior ∧ ¬ vbe parseRes.ast optimizedAST then
    Except.error
      "Behavioral equivalence validation failed - optimization compromised correctness".toList
  else
    let res : CompileResult :=
      { ast := optimizedAST, tokens := tokSt.tokens,
        tokErrors := tokSt.errors, parseErrors := parseRes.errors }
    Except.ok res

/- ================================================================
   Claim C5: "no core operation throws uncaught".
   ================================================================ -/

/-- Claim C5, counterexample: `compile` with default options raises the
behavioral-equivalence error on the ordinary input `<p>ab</p><p>cd</p>`:
the optimizer replaces the second paragraph's text by the equivalence
class representative's content (`cd` becomes `ab`), the validation pass
detects the content change, and `compile` throws instead of returning a
result with diagnostics. -/
theorem C5_counterexample :
    exceptIsOk (htmlCompile "<p>ab</p><p>cd</p>".toList {}) = false := by
  decide

/-- Claim C5 (amended): the behavioral-equivalence throw in `compile` is
the only uncaught exit of the pipeline — tokenize and parse catch or
swallow their errors internally — so with `validateBehavior` disabled,
`compile` returns normally for every input and option setting. -/
theorem C5_compile_total_without_validation (input : Str) (o : COptions)
    (h : o.validateBehavior = false) :
    exceptIsOk (htmlCompile input o) = true := by
  rw [htmlCompile]
  simp [h, exceptIsOk]

/-- Witness for `C5_compile_total_without_validation`. -/
theorem C5_compile_total_without_validation_witness :
    exceptIsOk (htmlCompile "<p>ab</p><p>cd</p>".toList
      { validateBehavior := false }) = true :=
  C5_compile_total_without_validation "<p>ab</p><p>cd</p>".toList
    { validateBehavior := false } (by decide)

/- ================================================================
   Claims C4 and C2: counterexamples on `HTMLASTBuilder`'s optimizer.
   ================================================================ -/

/-- A document with two adjacent one-letter text nodes and a paragraph
holding a two-letter text node: all three text nodes share the abstracted
content pattern `WORD` and hence one equivalence class. -/
def c4tree : PNode := PNode.mk { id := 0, ntype := NType.Document } none none
  [PNode.mk { id := 1, ntype := NType.Text, content := "a".toList } none none [],
   PNode.mk { id := 2, ntype := NType.Text, content := "b".toList } none none [],
   PNode.mk { id := 3, ntype := NType.Element, tagName := "p".toList } none none
     [PNode.mk { id := 4, ntype := NType.Text, content := "cc".toList } none none []]]

/-- Claim C4, counterexample: the single-pass builder's optimizer is not
idempotent.  On `c4tree` the first run substitutes the class
representative (`b` and `cc` become `a`) and merges the adjacent texts
into `aa`; the second run places `aa` and `a` in one class whose
representative is the smaller `a`, rewriting `aa` to `a` — so the second
run's output differs structurally from the first's. -/
theorem C4_counterexample :
    pnodeBeq (buildOptimizedAST (buildOptimizedAST c4tree true) true)
      (buildOptimizedAST c4tree true) = false ∧
    ((buildOptimizedAST c4tree true).children.map (fun c => c.pd.content)) =
      ["aa".toList, []] ∧
    ((buildOptimizedAST (buildOptimizedAST c4tree true) true).children.map
      (fun c => c.pd.content)) = ["a".toList, []] := by
  refine ⟨?_, ?_, ?_⟩ <;> decide

/-- A document with the text `ab` and a paragraph holding the text `cd`:
both texts share the abstracted pattern `WORD`. -/
def c2tree : PNode := PNode.mk { id := 0, ntype := NType.Document } none none
  [PNode.mk { id := 1, ntype := NType.Text, content := "ab".toList } none none [],
   PNode.mk { id := 2, ntype := NType.Element, tagName := "p".toList } none none
     [PNode.mk { id := 3, ntype := NType.Text, content := "cd".toList } none none []]]

/-- Claim C2, counterexample: the optimizer changes visible text content
even though no text merging occurs.  On `c2tree` the child structure is
preserved node for node (so the "up to merging" allowance is not in
play), yet the paragraph's text node comes back with content `ab` instead
of `cd`: it was replaced by a clone of its equivalence-class
representative, whose signature only abstracts the content pattern. -/
theorem C2_counterexample :
    ((buildOptimizedAST c2tree true).children.map (fun c => c.children.length)) =
      (c2tree.children.map (fun c => c.children.length)) ∧
    (buildOptimizedAST c2tree true).children.length = c2tree.children.length ∧
    ((c2tree.children.getD 1 nullPNode).children.getD 0 nullPNode).pd.content = "cd".toList ∧
    (((buildOptimizedAST c2tree true).children.getD 1 nullPNode).children.getD 0
      nullPNode).pd.content = "ab".toList := by
  refine ⟨?_, ?_, ?_, ?_⟩ <;> decide

/- ================================================================
   `CSSAstOptimizer` (src/src/css/ast/CSSAstOptimizer.ts) for claim C8.
   The `CSSNode` class itself is not under src/ — its shape (type, value,
   metadata object, children, parent back-reference) is read off its uses
   in the optimizer.  `buildStateClasses` runs as phase 1 of `optimize`
   and mutates the *input* tree's nodes; the mutation is modelled as an
   explicit post-state function on the tree.
   ================================================================ -/

inductive MetaV where
  | mb (b : Bool)
  | ms (s : Str)
  | mn (n : Nat)
deriving DecidableEq

inductive CNode where
  | mk (ctype : Str) (cvalue : Option Str) (cmeta : List (Str × MetaV)) (children : List CNode)

def CNode.ctype : CNode → Str
  | .mk t _ _ _ => t

def CNode.cvalue : CNode → Option Str
  | .mk _ v _ _ => v

def CNode.cmeta : CNode → List (Str × MetaV)
  | .mk _ _ m _ => m

def CNode.children : CNode → List CNode
  | .mk _ _ _ cs => cs

mutual
def cnodeBeq : CNode → CNode → Bool
  | .mk t1 v1 m1 cs1, .mk t2 v2 m2 cs2 =>
    t1 = t2 ∧ v1 = v2 ∧ m1 = m2 ∧ cnodeListBeq cs1 cs2
def cnodeListBeq : List CNode → List CNode → Bool
  | [], [] => true
  | a :: as, b :: bs => cnodeBeq a b ∧ cnodeListBeq as bs
  | _, _ => false
end

/-- `computeNodeSignature(node)` of the CSS optimizer: type, value (when
not null) and the children's type list. -/
def cssNodeSignature (n : CNode) : Str :=
  joinWith "|".toList ([n.ctype] ++
    (match n.cvalue with
     | some v => [v]
     | none => []) ++
    (if n.children.length ≠ 0 then
      [joinWith ",".toList (n.children.map (fun c => c.ctype))]
    else []))

mutual
/-- The signature-collection pass of `buildStateClasses` (pre-order,
insertion-ordered buckets). -/
def cssCollect (acc : List (Str × Nat)) : CNode → List (Str × Nat)
  | CNode.mk t v m cs =>
    let sig := cssNodeSignature (CNode.mk t v m cs)
    let acc1 :=
      match mGet acc sig with
      | some k => mSet acc sig (k + 1)
      | none => mSet acc sig 1
    cssCollectList acc1 cs
def cssCollectList (acc : List (Str × Nat)) : List CNode → List (Str × Nat)
  | [] => acc
  | c :: cs => cssCollectList (cssCollect acc c) cs
end

/-- The class-id assignment of `buildStateClasses`' second pass: signature
groups with more than one member, in first-seen order, get ids 0, 1, …. -/
def cssAssignment (root : CNode) : List (Str × Nat) :=
  ((cssCollect [] root).filter (fun kv => 1 < kv.2)).enum.map (fun ik => (ik.2.1, ik.1))

mutual
/-- The post-state of the input tree after `buildStateClasses`: every node
whose signature belongs to a multi-member group has received
`metadata.equivalenceClass = classId` (the in-place
`node.metadata.equivalenceClass = classId` write). -/
def cssMark (asg : List (Str × Nat)) : CNode → CNode
  | CNode.mk t v m cs =>
    let m' :=
      match mGet asg (cssNodeSignature (CNode.mk t v m cs)) with
      | some k => mSet m "equivalenceClass".toList (MetaV.mn k)
      | none => m
    CNode.mk t v m' (cssMarkList asg cs)
def cssMarkList (asg : List (Str × Nat)) : List CNode → List CNode
  | [] => []
  | c :: cs => cssMark asg c :: cssMarkList asg cs
end

/-- The input tree as `CSSAstOptimizer.optimize` leaves it after its first
phase, `buildStateClasses(ast.root)`. -/
def cssBuildStateClassesPost (root : CNode) : CNode :=
  cssMark (cssAssignment root) root

/-- Drop the `equivalenceClass` metadata entry everywhere — the
comparison that isolates what phase 1 may have written. -/
def eraseKey {α : Type} (m : List (Str × α)) (k : Str) : List (Str × α) :=
  m.filter (fun kv => ¬ kv.1 = k)

mutual
def cssStrip : CNode → CNode
  | CNode.mk t v m cs =>
    CNode.mk t v (eraseKey m "equivalenceClass".toList) (cssStripList cs)
def cssStripList : List CNode → List CNode
  | [] => []
  | c :: cs => cssStrip c :: cssStripList cs
end

/-- A stylesheet whose two `value`-typed children share a signature. -/
def c8tree : CNode :=
  CNode.mk "stylesheet".toList none []
    [CNode.mk "value".toList (some "a".toList) [] [],
     CNode.mk "value".toList (some "a".toList) [] []]

/-- Claim C8, counterexample: after the optimizer's phase 1 runs on
`c8tree`, both input children carry a freshly written
`equivalenceClass = 0` metadata entry — the input tree is not unchanged. -/
theorem C8_counterexample :
    cnodeBeq (cssBuildStateClassesPost c8tree) c8tree = false ∧
    ((cssBuildStateClassesPost c8tree).children.map (fun c => c.cmeta)) =
      [[("equivalenceClass".toList, MetaV.mn 0)],
       [("equivalenceClass".toList, MetaV.mn 0)]] ∧
    (c8tree.children.map (fun c => c.cmeta)) = [[], []] := by
  refine ⟨?_, ?_, ?_⟩ <;> decide

theorem eraseKey_mSet {α : Type} (m : List (Str × α)) (k : Str) (v : α) :
    eraseKey (mSet m k v) k = eraseKey m k := by
  induction m with
  | nil => simp [mSet, eraseKey]
  | cons hd tl ih =>
    rw [mSet]
    by_cases h : hd.1 = k
    · rw [if_pos h]
      simp [eraseKey, h]
    · rw [if_neg h]
      simp only [eraseKey] at ih ⊢
      simp only [decide_not] at ih
      simp [List.filter_cons, h, ih]

mutual
theorem cssMark_strip (asg : List (Str × Nat)) :
    ∀ t : CNode, cssStrip (cssMark asg t) = cssStrip t
  | CNode.mk t v m cs => by
    rw [cssMark]
    cases h : mGet asg (cssNodeSignature (CNode.mk t v m cs)) with
    | none => simp only [cssStrip, cssMarkList_strip asg cs]
    | some k =>
      simp only [cssStrip, cssMarkList_strip asg cs, eraseKey_mSet]
theorem cssMarkList_strip (asg : List (Str × Nat)) :
    ∀ cs : List CNode, cssStripList (cssMarkList asg cs) = cssStripList cs
  | [] => rfl
  | c :: cs => by
    simp only [cssMarkList, cssStripList, cssMark_strip asg c, cssMarkList_strip asg cs]
end

/-- Claim C8 (amended): the HTML optimizer builds a fresh tree, but the
CSS optimizer writes into its input: after phase 1 every input node in a
multi-member signature class has gained an `equivalenceClass` metadata
entry (and the later adjacent-value merge further mutates input value
nodes).  What phase 1 preserves is everything else: erasing the
`equivalenceClass` metadata entry from the post-state tree recovers
exactly the same erasure of the input tree — type, value, remaining
metadata and child structure of every input node are untouched. -/
theorem C8_phase1_only_marks (t : CNode) :
    cssStrip (cssBuildStateClassesPost t) = cssStrip t :=
  cssMark_strip (cssAssignment t) t

/- ================================================================
   Core HTMLAstOptimizer (src/src/html/ast/HTMLAstOptimizer.ts) over the
   core `Node` record of part_002 (type required; name, value, attributes,
   children, metadata optional; `{...undefined}` is `{}`, so metadata is a
   plain assoc list).
   ================================================================ -/

structure N0Data where
  ntype : Str
  name : Option Str := none
  value : Option Str := none
  attributes : Option (List (Str × Str)) := none
  metadata : List (Str × MetaV) := []
deriving DecidableEq

inductive Node0 where
  | mk (nd : N0Data) (children : Option (List Node0))

def Node0.nd : Node0 → N0Data
  | .mk d _ => d

def Node0.children : Node0 → Option (List Node0)
  | .mk _ cs => cs

mutual
def node0Beq : Node0 → Node0 → Bool
  | .mk d1 c1, .mk d2 c2 =>
    decide (d1 = d2) &&
    (match c1, c2 with
     | none, none => true
     | some l1, some l2 => node0ListBeq l1 l2
     | _, _ => false)
def node0ListBeq : List Node0 → List Node0 → Bool
  | [], [] => true
  | a :: as, b :: bs => node0Beq a b && node0ListBeq as bs
  | _, _ => false
end

/-- The `optimizeChildren` filter: a Text child is kept when its value is
truthy and trims to a non-empty string; every other child is kept. -/
def coreKeep (c : Node0) : Bool :=
  if c.nd.ntype = "Text".toList then
    match c.nd.value with
    | some v => !v.isEmpty && !(jsTrim v).isEmpty
    | none => false
  else true

/-- `mergeAdjacentTextNodes`: the pending merged text node (the `{...child}`
copy the loop mutates) is carried as an accumulator and flushed before every
non-text node and at the end. -/
def coreMergeGo : Option Node0 → List Node0 → List Node0
  | none, [] => []
  | some cur, [] => [cur]
  | none, c :: cs =>
    if c.nd.ntype = "Text".toList then coreMergeGo (some c) cs
    else c :: coreMergeGo none cs
  | some cur, c :: cs =>
    if c.nd.ntype = "Text".toList then
      let nv := (cur.nd.value.getD []) ++ (c.nd.value.getD [])
      coreMergeGo (some (Node0.mk { cur.nd with value := some nv } cur.children)) cs
    else cur :: c :: coreMergeGo none cs

def coreMergeAdjacentTextNodes (l : List Node0) : List Node0 := coreMergeGo none l

mutual
/-- `HTMLAstOptimizer.optimizeNode`: builds a fresh node — children start as
`[]`, metadata gains `isMinimized`, falsy name/value are not copied, attribute
entries with empty values are dropped, children are filtered, recursively
optimized and merged. -/
def coreOptimizeNode : Node0 → Node0
  | .mk d cs =>
    let name' := match d.name with
      | some v => if v.isEmpty then none else some v
      | none => none
    let value' := match d.value with
      | some v => if v.isEmpty then none else some v
      | none => none
    let attrs' := match d.attributes with
      | some l => some (l.filter (fun kv => !kv.2.isEmpty))
      | none => none
    let children' := match cs with
      | some l =>
        if l.isEmpty then some [] else some (coreMergeGo none (coreOptList l))
      | none => some []
    Node0.mk
      { ntype := d.ntype, name := name', value := value', attributes := attrs',
        metadata := mSet d.metadata "isMinimized".toList (MetaV.mb true) }
      children'
/-- `optimizeChildren` with the filter fused into the traversal: keep,
optimize, then merge adjacent text nodes. -/
def coreOptList : List Node0 → List Node0
  | [] => []
  | c :: cs =>
    if coreKeep c then coreOptimizeNode c :: coreOptList cs else coreOptList cs
end

def coreOptimizeChildren (l : List Node0) : List Node0 :=
  coreMergeAdjacentTextNodes (coreOptList l)

lemma mSet_idem {α : Type} (m : List (Str × α)) (k : Str) (v : α) :
    mSet (mSet m k v) k v = mSet m k v := by
  induction m with
  | nil => simp [mSet]
  | cons kv rest ih =>
    obtain ⟨k0, v0⟩ := kv
    by_cases h : k0 = k
    · simp [mSet, h]
    · simp [mSet, h, ih]

lemma jsTrim_eq_nil_iff (v : Str) :
    jsTrim v = [] ↔ ∀ c ∈ v, jsIsWS c = true := by
  unfold jsTrim
  rw [List.reverse_eq_nil_iff, List.dropWhile_eq_nil_iff]
  constructor
  · intro h c hc
    have hsplit : c ∈ v.takeWhile (fun c => jsIsWS c) ∨
        c ∈ v.dropWhile (fun c => jsIsWS c) := by
      rw [← List.mem_append, List.takeWhile_append_dropWhile]
      exact hc
    rcases hsplit with h1 | h1
    · exact List.mem_takeWhile_imp h1
    · exact h c (List.mem_reverse.mpr h1)
  · intro h c hc
    exact h c ((List.dropWhile_sublist _).subset (List.mem_reverse.mp hc))

lemma jsTrim_append_left (a b : Str) (h : jsTrim a ≠ []) :
    jsTrim (a ++ b) ≠ [] := by
  intro hab
  apply h
  rw [jsTrim_eq_nil_iff] at hab ⊢
  intro c hc
  exact hab c (List.mem_append_left b hc)

def allKeep (l : List Node0) : Prop := ∀ c ∈ l, coreKeep c = true

/-- No two adjacent Text nodes (the post-condition of the merge pass). -/
def noAdjText : List Node0 → Prop
  | [] => True
  | [_] => True
  | a :: b :: rest =>
    ¬(a.nd.ntype = "Text".toList ∧ b.nd.ntype = "Text".toList) ∧
      noAdjText (b :: rest)

mutual
/-- A node is in post-`optimizeNode` normal form: `isMinimized` already set
(so re-setting it is a no-op), no empty name/value, no empty attribute
values, and a present children list that is itself processed, all-kept and
free of adjacent text nodes. -/
def processedN : Node0 → Prop
  | .mk _ none => False
  | .mk d (some l) =>
    mSet d.metadata "isMinimized".toList (MetaV.mb true) = d.metadata ∧
    (∀ v, d.name = some v → v ≠ []) ∧
    (∀ v, d.value = some v → v ≠ []) ∧
    (∀ al, d.attributes = some al → ∀ kv ∈ al, kv.2 ≠ ([] : Str)) ∧
    processedL l ∧ allKeep l ∧ noAdjText l
def processedL : List Node0 → Prop
  | [] => True
  | c :: cs => processedN c ∧ processedL cs
end

/-- Invariant of the pending merged text node. -/
def curOK : Option Node0 → Prop
  | none => True
  | some c => processedN c ∧ coreKeep c = true ∧ c.nd.ntype = "Text".toList

lemma noAdjText_cons (a : Node0) (l : List Node0)
    (ha : ¬ a.nd.ntype = "Text".toList) (hl : noAdjText l) :
    noAdjText (a :: l) := by
  cases l with
  | nil => simp [noAdjText]
  | cons b rest => exact ⟨fun h => ha h.1, hl⟩

lemma noAdjText_tail (a : Node0) (l : List Node0) (h : noAdjText (a :: l)) :
    noAdjText l := by
  cases l with
  | nil => simp [noAdjText]
  | cons b rest => exact h.2

lemma coreKeep_opt (c : Node0) (h : coreKeep c = true) :
    coreKeep (coreOptimizeNode c) = true := by
  cases c with
  | mk d cs =>
    simp only [coreKeep, coreOptimizeNode, Node0.nd] at h ⊢
    by_cases ht : d.ntype = "Text".toList
    · rw [if_pos ht] at h
      rw [if_pos ht]
      cases hv : d.value with
      | none => rw [hv] at h; simp at h
      | some v =>
        rw [hv] at h
        simp only [Bool.and_eq_true, Bool.not_eq_true'] at h
        have hne : ¬ v = [] := by simpa using h.1
        simp [hv, hne, h.1, h.2]
    · rw [if_neg ht] at h ⊢

lemma mergedCur_OK (u c : Node0) (hu : curOK (some u))
    (hc : processedN c) (hck : coreKeep c = true)
    (hct : c.nd.ntype = "Text".toList) :
    curOK (some (Node0.mk
      { u.nd with value := some ((u.nd.value.getD []) ++ (c.nd.value.getD [])) }
      u.children)) := by
  obtain ⟨hup, huk, hut⟩ := hu
  cases u with
  | mk ud ucs =>
    cases ucs with
    | none => exact absurd hup (by simp [processedN])
    | some ul =>
      simp only [processedN] at hup
      obtain ⟨hm, hn, hv, ha, hpl, hak, hadj⟩ := hup
      simp only [Node0.nd] at hut ⊢
      have huval : ∃ uv, ud.value = some uv ∧ uv ≠ [] := by
        simp only [coreKeep, Node0.nd, if_pos hut] at huk
        cases hv0 : ud.value with
        | none => rw [hv0] at huk; simp at huk
        | some uv =>
          rw [hv0] at huk
          simp only [Bool.and_eq_true, Bool.not_eq_true'] at huk
          exact ⟨uv, rfl, by simpa [List.isEmpty_iff] using huk.1⟩
      obtain ⟨uv, huv, huvne⟩ := huval
      have hnvne : (ud.value.getD []) ++ (c.nd.value.getD []) ≠ [] := by
        rw [huv]
        simp [huvne]
      have htrim : jsTrim ((ud.value.getD []) ++ (c.nd.value.getD [])) ≠ [] := by
        rw [huv]
        apply jsTrim_append_left
        simp only [coreKeep, Node0.nd, if_pos hut] at huk
        rw [huv] at huk
        simp only [Bool.and_eq_true, Bool.not_eq_true'] at huk
        simpa [List.isEmpty_iff] using huk.2
      refine ⟨?_, ?_, hut⟩
      · simp only [processedN]
        exact ⟨hm, hn, fun v hveq => by
            simp only [Option.some.injEq] at hveq
            rw [← hveq]; exact hnvne,
          ha, hpl, hak, hadj⟩
      · simp only [coreKeep, Node0.nd, if_pos hut, Bool.and_eq_true,
          Bool.not_eq_true']
        exact ⟨List.isEmpty_eq_false.mpr hnvne, List.isEmpty_eq_false.mpr htrim⟩

lemma mergeGo_good : ∀ (l : List Node0) (cur : Option Node0),
    processedL l → allKeep l → curOK cur →
    processedL (coreMergeGo cur l) ∧ allKeep (coreMergeGo cur l) ∧
      noAdjText (coreMergeGo cur l) := by
  intro l
  induction l with
  | nil =>
    intro cur _ _ hcur
    cases cur with
    | none =>
      simp only [coreMergeGo]
      exact ⟨trivial, fun c hc => absurd hc (List.not_mem_nil c), trivial⟩
    | some u =>
      simp only [coreMergeGo]
      exact ⟨⟨hcur.1, trivial⟩, fun c hc => by
          rw [List.mem_singleton] at hc; rw [hc]; exact hcur.2.1,
        by simp [noAdjText]⟩
  | cons c cs ih =>
    intro cur hp hk hcur
    have hpc : processedN c := hp.1
    have hkc : coreKeep c = true := hk c (by simp)
    have hkcs : allKeep cs := fun x hx => hk x (by simp [hx])
    by_cases ht : c.nd.ntype = "Text".toList
    · cases cur with
      | none =>
        simp only [coreMergeGo, if_pos ht]
        exact ih (some c) hp.2 hkcs ⟨hpc, hkc, ht⟩
      | some u =>
        simp only [coreMergeGo, if_pos ht]
        exact ih _ hp.2 hkcs (mergedCur_OK u c hcur hpc hkc ht)
    · cases cur with
      | none =>
        simp only [coreMergeGo, if_neg ht]
        obtain ⟨h1, h2, h3⟩ := ih none hp.2 hkcs trivial
        refine ⟨⟨hpc, h1⟩, ?_, noAdjText_cons c _ ht h3⟩
        intro x hx
        rw [List.mem_cons] at hx
        rcases hx with hx | hx
        · rw [hx]; exact hkc
        · exact h2 x hx
      | some u =>
        simp only [coreMergeGo, if_neg ht]
        obtain ⟨h1, h2, h3⟩ := ih none hp.2 hkcs trivial
        refine ⟨⟨hcur.1, hpc, h1⟩, ?_, ?_⟩
        · intro x hx
          rw [List.mem_cons] at hx
          rcases hx with hx | hx
          · rw [hx]; exact hcur.2.1
          rw [List.mem_cons] at hx
          rcases hx with hx | hx
          · rw [hx]; exact hkc
          · exact h2 x hx
        · exact ⟨fun hpair => ht hpair.2, noAdjText_cons c _ ht h3⟩

mutual
theorem coreOpt_processed : ∀ n : Node0, processedN (coreOptimizeNode n)
  | .mk d none => by
    simp only [coreOptimizeNode, processedN]
    refine ⟨mSet_idem _ _ _, ?_, ?_, ?_, trivial,
      fun c hc => absurd hc (List.not_mem_nil c), trivial⟩
    · intro v hv
      cases hn : d.name with
      | none => rw [hn] at hv; simp at hv
      | some w =>
        rw [hn] at hv
        by_cases hw : w.isEmpty
        · simp [hw] at hv
        · simp [hw] at hv
          rw [← hv]
          simpa using hw
    · intro v hv
      cases hn : d.value with
      | none => rw [hn] at hv; simp at hv
      | some w =>
        rw [hn] at hv
        by_cases hw : w.isEmpty
        · simp [hw] at hv
        · simp [hw] at hv
          rw [← hv]
          simpa using hw
    · intro al hal kv hkv
      cases hA : d.attributes with
      | none => rw [hA] at hal; simp at hal
      | some A =>
        rw [hA] at hal
        simp only [Option.some.injEq] at hal
        rw [← hal] at hkv
        have := List.of_mem_filter hkv
        simpa using this
  | .mk d (some l) => by
    have hL := coreOptList_processed l
    simp only [coreOptimizeNode]
    by_cases hle : l.isEmpty
    · rw [if_pos hle]
      simp only [processedN]
      refine ⟨mSet_idem _ _ _, ?_, ?_, ?_, trivial,
        fun c hc => absurd hc (List.not_mem_nil c), trivial⟩
      · intro v hv
        cases hn : d.name with
        | none => rw [hn] at hv; simp at hv
        | some w =>
          rw [hn] at hv
          by_cases hw : w.isEmpty
          · simp [hw] at hv
          · simp [hw] at hv
            rw [← hv]
            simpa using hw
      · intro v hv
        cases hn : d.value with
        | none => rw [hn] at hv; simp at hv
        | some w =>
          rw [hn] at hv
          by_cases hw : w.isEmpty
          · simp [hw] at hv
          · simp [hw] at hv
            rw [← hv]
            simpa using hw
      · intro al hal kv hkv
        cases hA : d.attributes with
        | none => rw [hA] at hal; simp at hal
        | some A =>
          rw [hA] at hal
          simp only [Option.some.injEq] at hal
          rw [← hal] at hkv
          have := List.of_mem_filter hkv
          simpa using this
    · rw [if_neg hle]
      obtain ⟨hm1, hm2, hm3⟩ :=
        mergeGo_good (coreOptList l) none hL.1 hL.2 trivial
      simp only [processedN]
      refine ⟨mSet_idem _ _ _, ?_, ?_, ?_, hm1, hm2, hm3⟩
      · intro v hv
        cases hn : d.name with
        | none => rw [hn] at hv; simp at hv
        | some w =>
          rw [hn] at hv
          by_cases hw : w.isEmpty
          · simp [hw] at hv
          · simp [hw] at hv
            rw [← hv]
            simpa using hw
      · intro v hv
        cases hn : d.value with
        | none => rw [hn] at hv; simp at hv
        | some w =>
          rw [hn] at hv
          by_cases hw : w.isEmpty
          · simp [hw] at hv
          · simp [hw] at hv
            rw [← hv]
            simpa using hw
      · intro al hal kv hkv
        cases hA : d.attributes with
        | none => rw [hA] at hal; simp at hal
        | some A =>
          rw [hA] at hal
          simp only [Option.some.injEq] at hal
          rw [← hal] at hkv
          have := List.of_mem_filter hkv
          simpa using this
theorem coreOptList_processed : ∀ l : List Node0,
    processedL (coreOptList l) ∧ allKeep (coreOptList l)
  | [] => ⟨trivial, fun c hc => absurd hc (List.not_mem_nil c)⟩
  | c :: cs => by
    have hc := coreOpt_processed c
    have hcs := coreOptList_processed cs
    by_cases hk : coreKeep c = true
    · simp only [coreOptList, if_pos hk]
      refine ⟨⟨hc, hcs.1⟩, ?_⟩
      intro x hx
      rw [List.mem_cons] at hx
      rcases hx with hx | hx
      · rw [hx]; exact coreKeep_opt c hk
      · exact hcs.2 x hx
    · simp only [coreOptList, if_neg hk]
      exact hcs
end

lemma mergeGo_flush (cur : Node0) (l : List Node0)
    (h : ∀ b, l.head? = some b → ¬ b.nd.ntype = "Text".toList) :
    coreMergeGo (some cur) l = cur :: coreMergeGo none l := by
  cases l with
  | nil => simp [coreMergeGo]
  | cons b rest =>
    have hb := h b rfl
    simp only [coreMergeGo]
    rw [if_neg hb, if_neg hb]

lemma mergeGo_fix : ∀ l : List Node0, noAdjText l → coreMergeGo none l = l := by
  intro l
  induction l with
  | nil => intro _; simp [coreMergeGo]
  | cons c cs ih =>
    intro h
    by_cases ht : c.nd.ntype = "Text".toList
    · simp only [coreMergeGo, if_pos ht]
      cases cs with
      | nil => simp [coreMergeGo]
      | cons b rest =>
        have hb : ¬ b.nd.ntype = "Text".toList := fun hbt => h.1 ⟨ht, hbt⟩
        rw [mergeGo_flush c (b :: rest) (fun b' hb' => by
          simp only [List.head?_cons, Option.some.injEq] at hb'
          rw [← hb']
          exact hb)]
        rw [ih (noAdjText_tail _ _ h)]
    · simp only [coreMergeGo, if_neg ht]
      rw [ih (noAdjText_tail _ _ h)]

mutual
theorem coreOpt_fix : ∀ n : Node0, processedN n → coreOptimizeNode n = n
  | .mk d none => fun h => absurd h (by simp [processedN])
  | .mk d (some l) => fun h => by
    simp only [processedN] at h
    obtain ⟨hm, hn, hv, ha, hpl, hak, hadj⟩ := h
    obtain ⟨dt, dn, dv, da, dm⟩ := d
    simp only at hm hn hv ha
    simp only [coreOptimizeNode, Node0.mk.injEq, N0Data.mk.injEq]
    refine ⟨⟨trivial, ?_, ?_, ?_, hm⟩, ?_⟩
    · cases hdn : dn with
      | none => rfl
      | some w =>
        have hw := hn w hdn
        simp [List.isEmpty_eq_false.mpr hw]
    · cases hdv : dv with
      | none => rfl
      | some w =>
        have hw := hv w hdv
        simp [List.isEmpty_eq_false.mpr hw]
    · cases hda : da with
      | none => rfl
      | some A =>
        simp only [Option.some.injEq]
        rw [List.filter_eq_self]
        intro kv hkv
        have := ha A hda kv hkv
        simpa using this
    · by_cases hle : l.isEmpty
      · rw [if_pos hle]
        rw [List.isEmpty_iff] at hle
        rw [hle]
      · rw [if_neg hle]
        rw [coreOptList_fix l hpl hak, mergeGo_fix l hadj]
theorem coreOptList_fix : ∀ l : List Node0,
    processedL l → allKeep l → coreOptList l = l
  | [] => fun _ _ => rfl
  | c :: cs => fun hp hk => by
    have hp1 : processedN c := hp.1
    have hp2 : processedL cs := hp.2
    have hkc := hk c (by simp)
    simp only [coreOptList, if_pos hkc]
    rw [coreOpt_fix c hp1, coreOptList_fix cs hp2 (fun x hx => hk x (by simp [hx]))]
end

/-- Claim C4 (amended): the legacy HTMLASTBuilder optimizer is not
idempotent (see the counterexample: a second pass re-merges the
representative-substituted text nodes), but the core `HTMLAstOptimizer`
of src/src/html/ast/HTMLAstOptimizer.ts is: its `optimizeNode` output is a
fixed point — `optimize(optimize(tree))` equals `optimize(tree)` for every
input tree. -/
theorem C4_core_idempotent (n : Node0) :
    coreOptimizeNode (coreOptimizeNode n) = coreOptimizeNode n :=
  coreOpt_fix _ (coreOpt_processed n)

/- ================================================================
   Claim C2, amended general theorem: shape preservation of the part_005
   optimizer.  The counterexample above shows text CONTENT is rewritten;
   what `buildOptimizedAST` does preserve is the tree's shape — every
   node's type, every text node's whitespace flag, and the relative order
   of children, up to the merging of adjacent text nodes.
   ================================================================ -/

/-- The shape of a node: its type, its whitespace flag when it is a text
node (`false` otherwise), and the shapes of its children in order. -/
inductive SNode where
  | mk (t : NType) (w : Bool) (children : List SNode)

def shapeW (d : PData) : Bool :=
  if d.ntype = NType.Text then d.isWhitespace else false

mutual
def nodeShape : PNode → SNode
  | .mk d _ _ cs => SNode.mk d.ntype (shapeW d) (listShape cs)
def listShape : List PNode → List SNode
  | [] => []
  | c :: cs => nodeShape c :: listShape cs
end

/-- Modelled from the spec: merging adjacent text nodes at the shape level
— a run of text shapes with one whitespace flag collapses to a single
childless text shape (the merged node is a clone, and clones carry no
children). -/
def mergeShapesGo : Option Bool → List SNode → List SNode
  | none, [] => []
  | some w, [] => [SNode.mk NType.Text w []]
  | cur, SNode.mk t w scs :: ss =>
    if t = NType.Text then
      match cur with
      | some cw =>
        if cw = w then mergeShapesGo (some cw) ss
        else SNode.mk NType.Text cw [] :: mergeShapesGo (some w) ss
      | none => mergeShapesGo (some w) ss
    else
      (match cur with
       | some cw => [SNode.mk NType.Text cw []]
       | none => []) ++ SNode.mk t w scs :: mergeShapesGo none ss

def mergeShapes (l : List SNode) : List SNode := mergeShapesGo none l

mutual
/-- The shape the amended claim promises for the optimizer's output on a
given input tree: same type and whitespace flag at every node, children in
order with adjacent text shapes merged. -/
def mShape : PNode → SNode
  | .mk d _ _ cs => SNode.mk d.ntype (shapeW d) (mergeShapes (mShapeList cs))
def mShapeList : List PNode → List SNode
  | [] => []
  | c :: cs => mShape c :: mShapeList cs
end

lemma takeWhile_append_all (p : Char → Bool) (x : Str) (hx : ∀ c ∈ x, p c = true)
    (y : Str) : (x ++ y).takeWhile p = x ++ y.takeWhile p := by
  induction x with
  | nil => simp
  | cons c cs ih =>
    have hc := hx c (by simp)
    simp only [List.cons_append, List.takeWhile_cons, hc, if_true]
    rw [ih (fun c' hc' => hx c' (by simp [hc']))]

lemma dropWhile_append_all (p : Char → Bool) (x : Str) (hx : ∀ c ∈ x, p c = true)
    (y : Str) : (x ++ y).dropWhile p = y.dropWhile p := by
  induction x with
  | nil => simp
  | cons c cs ih =>
    have hc := hx c (by simp)
    simp only [List.cons_append, List.dropWhile_cons, hc, if_true]
    exact ih (fun c' hc' => hx c' (by simp [hc']))

lemma typeStr_barFree (t : NType) : ∀ c ∈ typeStr t, (!decide (c = '|')) = true := by
  cases t <;> decide

lemma typeStr_inj (t1 t2 : NType) (h : typeStr t1 = typeStr t2) : t1 = t2 := by
  cases t1 <;> cases t2 <;> revert h <;> decide

/-- First `|`-separated segment of a signature. -/
def seg1 (s : Str) : Str := s.takeWhile (fun c => !decide (c = '|'))

/-- Second `|`-separated segment of a signature. -/
def seg2 (s : Str) : Str :=
  ((s.dropWhile (fun c => !decide (c = '|'))).drop 1).takeWhile
    (fun c => !decide (c = '|'))

lemma sig_decomp (n : PNode) :
    ∃ rest, computeNodeSignature n = typeStr n.pd.ntype ++ '|' :: rest := by
  rcases n with ⟨d, dt, de, cs⟩
  simp only [computeNodeSignature, PNode.pd]
  rcases hsp : (match d.ntype with
    | NType.Element =>
      [d.tagName] ++
      (if d.attrs.length ≠ 0 then
        ["attrs:[".toList ++
          joinWith ",".toList ((sortAttrs d.attrs).map (fun kv => kv.1 ++ "=".toList ++ kv.2)) ++
          "]".toList]
      else []) ++
      ["selfClosing:".toList ++ boolStr d.selfClosing]
    | NType.Text =>
      ["isWhitespace:".toList ++ boolStr d.isWhitespace] ++
      (if ¬ d.isWhitespace then ["pattern:".toList ++ generateContentPattern d.content] else [])
    | NType.Comment => ["dataLength:".toList ++ natToStr d.pdata.length]
    | _ => []) ++
      ["structure:".toList ++ computeStructuralSignature (PNode.mk d dt de cs).children]
    with _ | ⟨y, ys⟩
  · exact absurd hsp (by simp)
  · refine ⟨joinWith "|".toList (y :: ys), ?_⟩
    rw [List.append_assoc, hsp]
    simp [joinWith]

lemma seg1_sig (n : PNode) : seg1 (computeNodeSignature n) = typeStr n.pd.ntype := by
  obtain ⟨rest, h⟩ := sig_decomp n
  rw [seg1, h, takeWhile_append_all _ _ (typeStr_barFree n.pd.ntype)]
  simp

lemma sig_type_inj (a b : PNode)
    (h : computeNodeSignature a = computeNodeSignature b) :
    a.pd.ntype = b.pd.ntype := by
  apply typeStr_inj
  rw [← seg1_sig a, ← seg1_sig b, h]

lemma text_sig_decomp (n : PNode) (ht : n.pd.ntype = NType.Text) :
    ∃ rest, computeNodeSignature n = typeStr NType.Text ++ '|' ::
      (("isWhitespace:".toList ++ boolStr n.pd.isWhitespace) ++ '|' :: rest) := by
  rcases n with ⟨d, dt, de, cs⟩
  simp only [PNode.pd] at ht
  simp only [computeNodeSignature, PNode.pd, ht]
  rcases hsp : (if ¬ d.isWhitespace then
        ["pattern:".toList ++ generateContentPattern d.content] else []) ++
      ["structure:".toList ++ computeStructuralSignature (PNode.mk d dt de cs).children]
    with _ | ⟨y, ys⟩
  · exact absurd hsp (by simp)
  · refine ⟨joinWith "|".toList (y :: ys), ?_⟩
    have hre : [typeStr NType.Text] ++
        (["isWhitespace:".toList ++ boolStr d.isWhitespace] ++
          (if ¬ d.isWhitespace then
            ["pattern:".toList ++ generateContentPattern d.content] else [])) ++
        ["structure:".toList ++ computeStructuralSignature (PNode.mk d dt de cs).children] =
        typeStr NType.Text :: ("isWhitespace:".toList ++ boolStr d.isWhitespace) :: (y :: ys) := by
      rw [List.append_assoc [typeStr NType.Text],
        List.append_assoc ["isWhitespace:".toList ++ boolStr d.isWhitespace], hsp]
      simp
    rw [hre]
    simp [joinWith]

lemma iw_barFree (w : Bool) :
    ∀ c ∈ "isWhitespace:".toList ++ boolStr w, (!decide (c = '|')) = true := by
  cases w <;> decide

lemma seg2_sig_text (n : PNode) (ht : n.pd.ntype = NType.Text) :
    seg2 (computeNodeSignature n) =
      "isWhitespace:".toList ++ boolStr n.pd.isWhitespace := by
  obtain ⟨rest, h⟩ := text_sig_decomp n ht
  rw [seg2, h, dropWhile_append_all _ _ (typeStr_barFree NType.Text)]
  have h1 : List.dropWhile (fun c => !decide (c = '|'))
      ('|' :: (("isWhitespace:".toList ++ boolStr n.pd.isWhitespace) ++ '|' :: rest)) =
      '|' :: (("isWhitespace:".toList ++ boolStr n.pd.isWhitespace) ++ '|' :: rest) := by
    rw [List.dropWhile_cons]
    simp
  rw [h1]
  simp only [List.drop_succ_cons, List.drop_zero]
  rw [takeWhile_append_all _ _ (iw_barFree n.pd.isWhitespace)]
  simp

lemma sig_text_w (a b : PNode)
    (h : computeNodeSignature a = computeNodeSignature b)
    (hta : a.pd.ntype = NType.Text) (htb : b.pd.ntype = NType.Text) :
    a.pd.isWhitespace = b.pd.isWhitespace := by
  have h2 : "isWhitespace:".toList ++ boolStr a.pd.isWhitespace =
      "isWhitespace:".toList ++ boolStr b.pd.isWhitespace := by
    rw [← seg2_sig_text a hta, ← seg2_sig_text b htb, h]
  revert h2
  cases a.pd.isWhitespace <;> cases b.pd.isWhitespace <;> decide

lemma cloneNode_type (n : PNode) : (cloneNode n).pd.ntype = n.pd.ntype := by
  rcases n with ⟨d, dt, de, cs⟩
  dsimp only [cloneNode, PNode.pd]
  cases d.ntype <;> rfl

lemma cloneNode_shapeW (n : PNode) : shapeW (cloneNode n).pd = shapeW n.pd := by
  rcases n with ⟨d, dt, de, cs⟩
  dsimp only [cloneNode, PNode.pd]
  cases h : d.ntype <;> simp [shapeW, h]

lemma cloneNode_children (n : PNode) : (cloneNode n).children = [] := by
  rcases n with ⟨d, dt, de, cs⟩
  dsimp only [cloneNode, PNode.pd]
  cases d.ntype <;> rfl

lemma pnodeSetId_type (n : PNode) (i : Nat) :
    (pnodeSetId n i).pd.ntype = n.pd.ntype := by
  rcases n with ⟨d, dt, de, cs⟩
  simp [pnodeSetId, PNode.pd]

lemma pnodeSetId_shapeW (n : PNode) (i : Nat) :
    shapeW (pnodeSetId n i).pd = shapeW n.pd := by
  rcases n with ⟨d, dt, de, cs⟩
  simp [pnodeSetId, shapeW, PNode.pd]

lemma nodeShape_setChildren (s : PNode) (cs : List PNode) :
    nodeShape (pnodeSetChildren s cs) =
      SNode.mk s.pd.ntype (shapeW s.pd) (listShape cs) := by
  rcases s with ⟨d, dt, de, cs0⟩
  simp [pnodeSetChildren, nodeShape, PNode.pd]

lemma nodeShape_setContent_text (nc : PNode) (v : Str)
    (ht : nc.pd.ntype = NType.Text) (hch : nc.children = []) :
    nodeShape (pnodeSetContent nc v) =
      SNode.mk NType.Text nc.pd.isWhitespace [] := by
  rcases nc with ⟨d, dt, de, cs⟩
  simp only [PNode.pd] at ht
  simp only [PNode.children] at hch
  simp [pnodeSetContent, nodeShape, PNode.pd, shapeW, ht, hch, listShape]

/-- The whitespace flag the pending merged text node contributes. -/
def scur : Option (PNode × Str) → Option Bool
  | none => none
  | some nc => some nc.1.pd.isWhitespace


lemma cloneNode_isW (n : PNode) (h : n.pd.ntype = NType.Text) :
    (cloneNode n).pd.isWhitespace = n.pd.isWhitespace := by
  rcases n with ⟨d, dt, de, cs⟩
  dsimp only [PNode.pd] at h ⊢
  dsimp only [cloneNode, PNode.pd]
  rw [h]

lemma shapeW_text (d : PData) (h : d.ntype = NType.Text) :
    shapeW d = d.isWhitespace := by
  rw [shapeW, if_pos h]

lemma mergeATN_shape : ∀ (l : List PNode) (cur : Option (PNode × Str)),
    (∀ nc, cur = some nc → nc.1.pd.ntype = NType.Text ∧ nc.1.children = []) →
    listShape (mergeATNGo cur l) = mergeShapesGo (scur cur) (listShape l)
  | [], none, _ => by
    simp [mergeATNGo, scur, listShape, mergeShapesGo]
  | [], some nc, hinv => by
    obtain ⟨ht, hch⟩ := hinv nc rfl
    simp only [mergeATNGo, scur, listShape, mergeShapesGo]
    rw [nodeShape_setContent_text nc.1 nc.2 ht hch]
  | PNode.mk cd cdt cde ccs :: cs, cur, hinv => by
    have hsh : listShape (PNode.mk cd cdt cde ccs :: cs) =
        SNode.mk cd.ntype (shapeW cd) (listShape ccs) :: listShape cs := by
      dsimp only [listShape, nodeShape, PNode.pd]
    rw [hsh]
    by_cases ht : cd.ntype = NType.Text
    · have hclt : (cloneNode (PNode.mk cd cdt cde ccs)).pd.ntype = NType.Text := by
        rw [cloneNode_type]
        exact ht
      have hclw : (cloneNode (PNode.mk cd cdt cde ccs)).pd.isWhitespace =
          cd.isWhitespace := by
        rw [cloneNode_isW _ (by rw [show (PNode.mk cd cdt cde ccs).pd = cd from rfl]; exact ht)]
        rfl
      have hinvC : ∀ nc', some (cloneNode (PNode.mk cd cdt cde ccs), cd.content) =
          some nc' → nc'.1.pd.ntype = NType.Text ∧ nc'.1.children = [] := by
        intro nc' hnc'
        rw [Option.some.injEq] at hnc'
        rw [← hnc']
        exact ⟨hclt, cloneNode_children _⟩
      cases cur with
      | none =>
        simp only [mergeATNGo]
        rw [show (PNode.mk cd cdt cde ccs).pd = cd from rfl]
        rw [if_pos ht]
        rw [mergeATN_shape cs _ hinvC]
        simp only [mergeShapesGo, scur]
        rw [if_pos ht, hclw, shapeW_text cd ht]
      | some nc =>
        obtain ⟨hnt, hnch⟩ := hinv nc rfl
        simp only [mergeATNGo]
        rw [show (PNode.mk cd cdt cde ccs).pd = cd from rfl]
        rw [if_pos ht]
        simp only [mergeShapesGo, scur]
        rw [if_pos ht, shapeW_text cd ht]
        by_cases hw : nc.1.pd.isWhitespace = cd.isWhitespace
        · rw [if_pos hw, if_pos hw]
          have hinvM : ∀ nc', some (nc.1, nc.2 ++ cd.content) = some nc' →
              nc'.1.pd.ntype = NType.Text ∧ nc'.1.children = [] := by
            intro nc' hnc'
            rw [Option.some.injEq] at hnc'
            rw [← hnc']
            exact ⟨hnt, hnch⟩
          rw [mergeATN_shape cs _ hinvM]
          rfl
        · rw [if_neg hw, if_neg hw]
          rw [listShape, mergeATN_shape cs _ hinvC]
          rw [nodeShape_setContent_text nc.1 nc.2 hnt hnch]
          dsimp only [scur]
          rw [hclw]
    · cases cur with
      | none =>
        simp only [mergeATNGo]
        rw [show (PNode.mk cd cdt cde ccs).pd = cd from rfl]
        rw [if_neg ht]
        simp only [mergeShapesGo]
        rw [if_neg ht]
        have hrec := mergeATN_shape cs none (fun nc hnc => by cases hnc)
        dsimp only [scur] at hrec
        simp only [List.nil_append, listShape, hrec]
        rfl
      | some nc =>
        obtain ⟨hnt, hnch⟩ := hinv nc rfl
        simp only [mergeATNGo]
        rw [show (PNode.mk cd cdt cde ccs).pd = cd from rfl]
        rw [if_neg ht]
        simp only [mergeShapesGo, scur]
        rw [if_neg ht]
        have hrec := mergeATN_shape cs none (fun nc hnc => by cases hnc)
        dsimp only [scur] at hrec
        simp only [List.cons_append, List.singleton_append, listShape, hrec]
        rw [nodeShape_setContent_text nc.1 nc.2 hnt hnch]
        rfl

lemma mGet_mSet {α : Type} (m : List (Str × α)) (k : Str) (v : α) (s : Str) :
    mGet (mSet m k v) s = if k = s then some v else mGet m s := by
  induction m with
  | nil =>
    simp [mSet, mGet]
  | cons kv rest ih =>
    obtain ⟨k0, v0⟩ := kv
    by_cases h : k0 = k
    · rw [h]
      by_cases hs : k = s
      · simp [mSet, mGet, hs]
      · simp [mSet, mGet, hs]
    · by_cases hs : k0 = s
      · have hks : ¬ k = s := fun he => h (hs.trans he.symm)
        have hsk : ¬ s = k := fun he => hks he.symm
        simp [mSet, mGet, h, hs, hks, hsk]
      · simp [mSet, mGet, h, hs, ih]

/-- Every member of every bucket of the classification accumulator has the
bucket's key as its signature. -/
def GroupsWF (acc : List (Str × List PNode)) : Prop :=
  ∀ kv ∈ acc, ∀ n ∈ kv.2, computeNodeSignature n = kv.1

lemma mAppend_wf (acc : List (Str × List PNode)) (k : Str) (v : PNode)
    (hacc : GroupsWF acc) (hv : computeNodeSignature v = k) :
    GroupsWF (mAppend acc k v) := by
  induction acc with
  | nil =>
    intro kv hkv n hn
    simp only [mAppend, List.mem_singleton] at hkv
    rw [hkv] at hn ⊢
    simp only [List.mem_singleton] at hn
    rw [hn]
    exact hv
  | cons kv0 rest ih =>
    obtain ⟨k0, vs0⟩ := kv0
    by_cases h : k0 = k
    · intro kv hkv n hn
      simp only [mAppend, if_pos h, List.mem_cons] at hkv
      rcases hkv with hkv | hkv
      · rw [hkv] at hn ⊢
        simp only [List.mem_append, List.mem_singleton] at hn
        rcases hn with hn | hn
        · exact hacc (k0, vs0) (by simp) n hn
        · rw [hn, hv, h]
      · exact hacc kv (by simp [hkv]) n hn
    · intro kv hkv n hn
      simp only [mAppend, if_neg h, List.mem_cons] at hkv
      rcases hkv with hkv | hkv
      · rw [hkv] at hn ⊢
        exact hacc (k0, vs0) (by simp) n hn
      · exact ih (fun kv' hkv' n' hn' => hacc kv' (by simp [hkv']) n' hn')
          kv hkv n hn

mutual
theorem classify_wf : ∀ (n : PNode) (acc : List (Str × List PNode)),
    GroupsWF acc → GroupsWF (classify acc n)
  | PNode.mk d dt de cs, acc, hacc => by
    rw [classify]
    exact classifyList_wf cs _ (mAppend_wf acc _ _ hacc rfl)
theorem classifyList_wf : ∀ (l : List PNode) (acc : List (Str × List PNode)),
    GroupsWF acc → GroupsWF (classifyList acc l)
  | [], acc, hacc => hacc
  | c :: cs, acc, hacc => by
    rw [classifyList]
    exact classifyList_wf cs _ (classify_wf c acc hacc)
end

lemma foldl_min_mem (rest : List PNode) :
    ∀ (a : PNode) (m : Nat),
      (rest.foldl (fun acc x =>
        if estimateNodeMemory x < acc.2 then (x, estimateNodeMemory x) else acc)
        (a, m)).1 = a ∨
      (rest.foldl (fun acc x =>
        if estimateNodeMemory x < acc.2 then (x, estimateNodeMemory x) else acc)
        (a, m)).1 ∈ rest := by
  induction rest with
  | nil => intro a m; left; rfl
  | cons x xs ih =>
    intro a m
    simp only [List.foldl_cons]
    by_cases hx : estimateNodeMemory x < m
    · rw [if_pos hx]
      rcases ih x (estimateNodeMemory x) with h | h
      · right; simp [h]
      · right; simp [h]
    · rw [if_neg hx]
      rcases ih a m with h | h
      · left; exact h
      · right; simp [h]

lemma selectRep_mem (nodes : List PNode) (h : nodes ≠ []) :
    selectRepresentative nodes ∈ nodes := by
  cases nodes with
  | nil => exact absurd rfl h
  | cons n rest =>
    rw [selectRepresentative]
    rcases foldl_min_mem rest n (estimateNodeMemory n) with h1 | h1
    · rw [h1]; simp
    · simp [h1]

/-- Well-formedness of the equivalence-class environment: every class is
keyed by its representative's signature. -/
def EnvWF (env : List (Str × EqCls)) : Prop :=
  ∀ s cls, mGet env s = some cls → computeNodeSignature cls.rep = s

lemma buildEnv_foldl_wf (gs : List (Str × List PNode))
    (hgs : ∀ kv ∈ gs, ∀ n ∈ kv.2, computeNodeSignature n = kv.1) :
    ∀ acc, EnvWF acc → EnvWF (gs.foldl (fun acc kv =>
      if 1 < kv.2.length then
        mSet acc kv.1 { nodes := kv.2, rep := selectRepresentative kv.2 }
      else acc) acc) := by
  induction gs with
  | nil => intro acc hacc; exact hacc
  | cons kv rest ih =>
    intro acc hacc
    simp only [List.foldl_cons]
    apply ih (fun kv' hkv' => hgs kv' (by simp [hkv']))
    by_cases hl : 1 < kv.2.length
    · rw [if_pos hl]
      intro s cls hget
      rw [mGet_mSet] at hget
      by_cases hk : kv.1 = s
      · rw [if_pos hk] at hget
        rw [Option.some.injEq] at hget
        rw [← hget]
        have hne : kv.2 ≠ [] := by
          intro he
          rw [he] at hl
          simp at hl
        have := hgs kv (by simp) (selectRepresentative kv.2) (selectRep_mem kv.2 hne)
        rw [this, hk]
      · rw [if_neg hk] at hget
        exact hacc s cls hget
    · rw [if_neg hl]
      exact hacc
lemma buildEnv_wf (ast : PNode) : EnvWF (buildEnv ast) := by
  rw [buildEnv]
  apply buildEnv_foldl_wf (classify [] ast)
    (classify_wf ast [] (fun kv hkv => absurd hkv (List.not_mem_nil kv)))
  intro s cls hget
  simp [mGet] at hget

lemma shapeW_congr (d d' : PData) (h1 : d'.ntype = d.ntype)
    (h2 : d'.isWhitespace = d.isWhitespace) : shapeW d' = shapeW d := by
  rw [shapeW, shapeW, h1, h2]

lemma shallow_shape (env : List (Str × EqCls)) (hwf : EnvWF env) (node : PNode)
    (s : PNode)
    (hs : s = match mGet env (computeNodeSignature node) with
      | some cls =>
        if cls.nodes.any (fun n => n.pd.id = node.pd.id) ∧ ¬ (cls.rep.pd.id = node.pd.id) then
          pnodeSetId (cloneNode cls.rep) node.pd.id
        else cloneNode node
      | none => cloneNode node) :
    s.pd.ntype = node.pd.ntype ∧ shapeW s.pd = shapeW node.pd := by
  subst hs
  cases hg : mGet env (computeNodeSignature node) with
  | none =>
    simp only [hg]
    exact ⟨cloneNode_type node, cloneNode_shapeW node⟩
  | some cls =>
    simp only [hg]
    by_cases hcond : cls.nodes.any (fun n => n.pd.id = node.pd.id) ∧
        ¬ (cls.rep.pd.id = node.pd.id)
    · rw [if_pos hcond]
      have hsig : computeNodeSignature cls.rep = computeNodeSignature node :=
        hwf _ _ hg
      have htyp : cls.rep.pd.ntype = node.pd.ntype := sig_type_inj _ _ hsig
      constructor
      · rw [pnodeSetId_type, cloneNode_type, htyp]
      · rw [pnodeSetId_shapeW, cloneNode_shapeW]
        by_cases htx : node.pd.ntype = NType.Text
        · rw [shapeW_text _ (by rw [htyp]; exact htx), shapeW_text _ htx]
          exact sig_text_w cls.rep node hsig (by rw [htyp]; exact htx) htx
        · rw [shapeW, if_neg (by rw [htyp]; exact htx), shapeW, if_neg htx]
    · rw [if_neg hcond]
      exact ⟨cloneNode_type node, cloneNode_shapeW node⟩

mutual
theorem optShape (env : List (Str × EqCls)) (hwf : EnvWF env) :
    ∀ n : PNode, nodeShape (optimizeNode env n) = mShape n
  | PNode.mk d dt de cs => by
    obtain ⟨ht1, ht2⟩ := shallow_shape env hwf (PNode.mk d dt de cs) _ rfl
    rw [show (PNode.mk d dt de cs).pd = d from rfl] at ht1 ht2
    simp only [optimizeNode]
    rw [nodeShape_setChildren, mergeAdjacentTextNodes,
      mergeATN_shape _ none (fun nc hnc => by cases hnc),
      optListShape env hwf cs, ht1, ht2]
    rfl
theorem optListShape (env : List (Str × EqCls)) (hwf : EnvWF env) :
    ∀ l : List PNode, listShape (optimizeList env l) = mShapeList l
  | [] => rfl
  | c :: cs => by
    simp only [optimizeList, listShape]
    rw [optShape env hwf c, optListShape env hwf cs]
    rfl
end

mutual
theorem applyMemOpt_shape : ∀ n : PNode, nodeShape (applyMemOpt n) = nodeShape n
  | PNode.mk d dt de cs => by
    by_cases he : d.ntype = NType.Element
    · simp only [applyMemOpt, if_pos he, nodeShape]
      rw [applyMemOptList_shape cs]
      rfl
    · simp only [applyMemOpt, if_neg he, nodeShape]
      rw [applyMemOptList_shape cs]
theorem applyMemOptList_shape : ∀ l : List PNode,
    listShape (applyMemOptList l) = listShape l
  | [] => rfl
  | c :: cs => by
    simp only [applyMemOptList, listShape]
    rw [applyMemOpt_shape c, applyMemOptList_shape cs]
end

/-- Claim C2 (amended): the part_005 optimizer does not preserve text
content (see the counterexample: representative substitution rewrites a
text node's content), but it does preserve the tree's shape: for every
input tree, the optimized tree has the same node type at every position,
the same whitespace flag at every text node, and the children in the same
relative order, up to the merging of adjacent text nodes. -/
theorem C2_shape_preserved (t : PNode) :
    nodeShape (buildOptimizedAST t true) = mShape t := by
  rw [buildOptimizedAST, if_neg (by simp)]
  rw [applyMemOpt_shape]
  exact optShape (buildEnv t) (buildEnv_wf t) t

/- ================================================================
   Claim C9: the diff engine.  `DiffPatchEngine` of
   src/src/html/_migration_backup_20250601_212354/_legacy/Node.ts
   (lines 629-1067), over the same core `Node` record as the core
   optimizer (`Node0`).  `diff` reads only the ASTs' `root` nodes, so the
   model takes the roots directly; the `keyMap` filled by
   `preprocessKeysInAST` is never read and is omitted.
   ================================================================ -/

/-- `DiffOptions` with the constructor's defaults; `useKeyAttribute` is a
string, falsy when empty. -/
structure DiffOptions where
  ignoreWhitespace : Bool := true
  ignoreCase : Bool := false
  optimizeTextChanges : Bool := true
  useKeyAttribute : Str := "key".toList
deriving DecidableEq

def defaultDiffOptions : DiffOptions := {}

/-- A `Diff` record; `changes` entries carry `none` for a removed
attribute (the `null` marker). -/
inductive Diff where
  | add (path : List Nat) (node : Node0)
  | remove (path : List Nat)
  | update (path : List Nat) (changes : List (Str × Option Str))
  | replace (path : List Nat) (node : Node0)
  | move (path fromPath toPath : List Nat)

def Diff.path : Diff → List Nat
  | .add p _ => p
  | .remove p => p
  | .update p _ => p
  | .replace p _ => p
  | .move p _ _ => p

mutual
/-- `DiffPatchEngine.cloneNode`: children start as `[]` and are deep
cloned when present, falsy name/value are not copied, attributes and
metadata are copied as-is. -/
def dpeCloneNode : Node0 → Node0
  | .mk d cs =>
    Node0.mk
      { ntype := d.ntype,
        name := match d.name with
          | some v => if v.isEmpty then none else some v
          | none => none,
        value := match d.value with
          | some v => if v.isEmpty then none else some v
          | none => none,
        attributes := d.attributes,
        metadata := d.metadata }
      (some (match cs with
        | some l => dpeCloneList l
        | none => []))
def dpeCloneList : List Node0 → List Node0
  | [] => []
  | c :: cs => dpeCloneNode c :: dpeCloneList cs
end

/-- `diffAttributes`: added/changed entries in new-map order, then
removed entries (`none`), accumulated with object-assignment semantics. -/
def dpeDiffAttributes (o n : Node0) : List (Str × Option Str) :=
  let oldA := o.nd.attributes.getD []
  let newA := n.nd.attributes.getD []
  let c1 := newA.foldl (fun acc kv =>
    if (mapGet oldA kv.1).isNone then mSet acc kv.1 (some kv.2)
    else if mapGet oldA kv.1 ≠ some kv.2 then mSet acc kv.1 (some kv.2)
    else acc) []
  oldA.foldl (fun acc kv =>
    if (mapGet newA kv.1).isNone then mSet acc kv.1 (none : Option Str)
    else acc) c1

def dpeAttrGet (c : Node0) (k : Str) : Option Str :=
  match c.nd.attributes with
  | some attrs => mapGet attrs k
  | none => none

/-- `areNodesEqual`: type, then text comparison for text nodes, then
name and the `id`/`class` heuristic for everything else. -/
def dpeAreNodesEqual (opts : DiffOptions) (o n : Node0) : Bool :=
  if ¬ (o.nd.ntype = n.nd.ntype) then false
  else if o.nd.ntype = "Text".toList ∧ n.nd.ntype = "Text".toList then
    let oldText := if opts.ignoreWhitespace then jsTrim (o.nd.value.getD [])
      else o.nd.value.getD []
    let newText := if opts.ignoreWhitespace then jsTrim (n.nd.value.getD [])
      else n.nd.value.getD []
    if opts.ignoreCase then decide (jsLower oldText = jsLower newText)
    else decide (oldText = newText)
  else if ¬ (o.nd.name = n.nd.name) then false
  else if ¬ (dpeAttrGet o "id".toList = dpeAttrGet n "id".toList) then false
  else if ¬ (dpeAttrGet o "class".toList = dpeAttrGet n "class".toList) then false
  else true

/-- The truthy key of a child under `useKeyAttribute`, when its attribute
map exists and carries one (`''` is falsy). -/
def dpeKey (opts : DiffOptions) (c : Node0) : Option Str :=
  match c.nd.attributes with
  | some attrs =>
    (match mapGet attrs opts.useKeyAttribute with
     | some k => if k.isEmpty then none else some k
     | none => none)
  | none => none

/-- `newKeyMap`: key to (node, index), later entries overwriting. -/
def dpeBuildKeyMap (opts : DiffOptions) (children : List Node0) :
    List (Str × (Node0 × Nat)) :=
  children.enum.foldl (fun m p =>
    match dpeKey opts p.2 with
    | some k => mSet m k (p.2, p.1)
    | none => m) []

/-- The removal/move/recursion pass of `diffChildrenWithKeys` over the old
children, also collecting `processedIndices`. -/
def dpeKeyedOldGo (opts : DiffOptions)
    (rec : Node0 → Node0 → List Nat → List Diff)
    (nkm : List (Str × (Node0 × Nat))) (path : List Nat) :
    Nat → List Node0 → List Diff × List Nat
  | _, [] => ([], [])
  | i, c :: cs =>
    match dpeKey opts c with
    | some k =>
      (match mGet nkm k with
       | some nn =>
         let moves := if i ≠ nn.2 then
             [Diff.move (path ++ [i]) (path ++ [i]) (path ++ [nn.2])]
           else []
         let recs := rec c nn.1 (path ++ [nn.2])
         let rest := dpeKeyedOldGo opts rec nkm path (i + 1) cs
         (moves ++ recs ++ rest.1, nn.2 :: rest.2)
       | none =>
         let rest := dpeKeyedOldGo opts rec nkm path (i + 1) cs
         (Diff.remove (path ++ [i]) :: rest.1, rest.2))
    | none =>
      let rest := dpeKeyedOldGo opts rec nkm path (i + 1) cs
      (Diff.remove (path ++ [i]) :: rest.1, rest.2)

/-- The addition pass of `diffChildrenWithKeys` over the new children. -/
def dpeKeyedAddGo (processed : List Nat) (path : List Nat) :
    Nat → List Node0 → List Diff
  | _, [] => []
  | i, c :: cs =>
    (if processed.contains i then [] else [Diff.add (path ++ [i]) (dpeCloneNode c)]) ++
      dpeKeyedAddGo processed path (i + 1) cs

def dpeDiffChildrenWithKeys (opts : DiffOptions)
    (rec : Node0 → Node0 → List Nat → List Diff)
    (oldC newC : List Node0) (path : List Nat) : List Diff :=
  let nkm := dpeBuildKeyMap opts newC
  let old := dpeKeyedOldGo opts rec nkm path 0 oldC
  old.1 ++ dpeKeyedAddGo old.2 path 0 newC

def dpeNullNode : Node0 := Node0.mk { ntype := [] } none

def nodeAt (l : List Node0) (i : Nat) : Node0 := (l.get? i).getD dpeNullNode

/-- `buildLCSMatrix` entry `[i][j]` (the LCS length of the length-`i` old
prefix and the length-`j` new prefix), computed recursively on reversed
prefixes. -/
def dpeLcsLenR (opts : DiffOptions) : List Node0 → List Node0 → Nat
  | [], _ => 0
  | _ :: _, [] => 0
  | a :: ra, b :: rb =>
    if dpeAreNodesEqual opts a b then dpeLcsLenR opts ra rb + 1
    else max (dpeLcsLenR opts ra (b :: rb)) (dpeLcsLenR opts (a :: ra) rb)
termination_by l1 l2 => l1.length + l2.length

def dpeMatrixAt (opts : DiffOptions) (olds news : List Node0) (i j : Nat) : Nat :=
  dpeLcsLenR opts ((olds.take i).reverse) ((news.take j).reverse)

/-- `extractMatchedPairs`'s backward walk, building the pre-`reverse`
(descending) pair list. -/
def dpeExtractPairsGo (opts : DiffOptions) (olds news : List Node0) :
    Nat → Nat → List (Nat × Nat)
  | 0, _ => []
  | _ + 1, 0 => []
  | i + 1, j + 1 =>
    if dpeAreNodesEqual opts (nodeAt olds i) (nodeAt news j) then
      (i, j) :: dpeExtractPairsGo opts olds news i j
    else if dpeMatrixAt opts olds news i (j + 1) ≥ dpeMatrixAt opts olds news (i + 1) j then
      dpeExtractPairsGo opts olds news i (j + 1)
    else dpeExtractPairsGo opts olds news (i + 1) j
termination_by i j => i + j

def dpeDiffChildrenWithoutKeys (opts : DiffOptions)
    (rec : Node0 → Node0 → List Nat → List Diff)
    (oldC newC : List Node0) (path : List Nat) : List Diff :=
  let pairs := (dpeExtractPairsGo opts oldC newC oldC.length newC.length).reverse
  let recs := pairs.foldl (fun acc p =>
    acc ++ rec (nodeAt oldC p.1) (nodeAt newC p.2) (path ++ [p.2])) []
  let oldMatched := pairs.map (fun p => p.1)
  let newMatched := pairs.map (fun p => p.2)
  recs ++
    ((List.range oldC.length).filterMap (fun i =>
      if oldMatched.contains i then none else some (Diff.remove (path ++ [i])))) ++
    ((List.range newC.length).filterMap (fun i =>
      if newMatched.contains i then none
      else some (Diff.add (path ++ [i]) (dpeCloneNode (nodeAt newC i)))))

/-- `diffChildren`: the branch is on the truthiness of the
`useKeyAttribute` OPTION, not on whether any child actually has a key, so
the default engine always takes the keyed path. -/
def dpeDiffChildren (opts : DiffOptions)
    (rec : Node0 → Node0 → List Nat → List Diff)
    (o n : Node0) (path : List Nat) : List Diff :=
  let oldC := o.children.getD []
  let newC := n.children.getD []
  if ¬ opts.useKeyAttribute.isEmpty then
    dpeDiffChildrenWithKeys opts rec oldC newC path
  else
    dpeDiffChildrenWithoutKeys opts rec oldC newC path

/-- `diffNodes` with explicit fuel (the recursion is bounded by the tree
height; `dpeDiff` supplies the node count). -/
def dpeDiffNodes (opts : DiffOptions) :
    Nat → Option Node0 → Option Node0 → List Nat → List Diff
  | 0, _, _, _ => []
  | _ + 1, none, none, _ => []
  | _ + 1, none, some n, path => [Diff.add path (dpeCloneNode n)]
  | _ + 1, some _, none, path => [Diff.remove path]
  | fuel + 1, some o, some n, path =>
    if ¬ (o.nd.ntype = n.nd.ntype) then [Diff.replace path (dpeCloneNode n)]
    else
      let attrChanges := dpeDiffAttributes o n
      let updates := if attrChanges.isEmpty then []
        else [Diff.update path attrChanges]
      if o.nd.ntype = "Text".toList ∧ n.nd.ntype = "Text".toList then
        let oldText := if opts.ignoreWhitespace then jsTrim (o.nd.value.getD [])
          else o.nd.value.getD []
        let newText := if opts.ignoreWhitespace then jsTrim (n.nd.value.getD [])
          else n.nd.value.getD []
        updates ++ (if ¬ (oldText = newText) then
            [Diff.update path [("value".toList, n.nd.value)]]
          else [])
      else
        updates ++ dpeDiffChildren opts
          (fun a b p => dpeDiffNodes opts fuel (some a) (some b) p) o n path

/-- `e` strictly extends `p` (the `startsWith(pathStr + '.')` test on
joined paths). -/
def pathStrict : List Nat → List Nat → Bool
  | [], [] => false
  | [], _ :: _ => true
  | _ :: _, [] => false
  | a :: as, b :: bs => decide (a = b) && pathStrict as bs

/-- The dedup loop of `optimizeDiffs` (`processedPaths` as a path list;
`markChildPathsAsProcessed` DELETES the strict descendants, as the code
does). -/
def dpeOptLoop : List Diff → List (List Nat) → List Diff
  | [], _ => []
  | d :: ds, processed =>
    if processed.contains d.path then dpeOptLoop ds processed
    else if processed.contains d.path.dropLast ∧
        ¬ (match d with | Diff.remove _ => true | _ => false) = true then
      dpeOptLoop ds processed
    else
      let processed' := d.path :: processed
      let processed'' :=
        match d with
        | Diff.remove _ =>
          processed'.filter (fun e => ¬ pathStrict d.path e)
        | Diff.replace _ _ =>
          processed'.filter (fun e => ¬ pathStrict d.path e)
        | _ => processed'
      d :: dpeOptLoop ds processed''

def dpePriority : Diff → Int
  | .remove _ => 0
  | .move _ _ _ => 1
  | .replace _ _ => 2
  | .update _ _ => 3
  | .add _ _ => 4

def pathLexCmp : List Nat → List Nat → Int
  | [], bs => -(bs.length : Int)
  | _ :: _, [] => 1
  | a :: as, b :: bs =>
    if ¬ (a = b) then (a : Int) - (b : Int) else pathLexCmp as bs

/-- The comparator of `sortDiffsByOperationOrder`. -/
def dpeOpCmp (a b : Diff) : Int :=
  let pd := dpePriority a - dpePriority b
  if pd ≠ 0 then pd
  else
    match a, b with
    | Diff.add pa _, Diff.add pb _ => (pa.length : Int) - (pb.length : Int)
    | _, _ => pathLexCmp a.path b.path

/-- The comparator of the first `optimizeDiffs` sort (deeper first). -/
def dpeDepthCmp (a b : Diff) : Int :=
  (b.path.length : Int) - (a.path.length : Int)

/-- Stable sort with a JavaScript-style comparator (ES2019 `Array.sort`
is stable). -/
def dpeInsert (cmp : Diff → Diff → Int) (x : Diff) : List Diff → List Diff
  | [] => [x]
  | y :: ys => if cmp y x ≤ 0 then y :: dpeInsert cmp x ys else x :: y :: ys

def dpeSortBy (cmp : Diff → Diff → Int) (l : List Diff) : List Diff :=
  l.foldl (fun acc x => dpeInsert cmp x acc) []

def dpeOptimizeDiffs (diffs : List Diff) : List Diff :=
  dpeSortBy dpeOpCmp (dpeOptLoop (dpeSortBy dpeDepthCmp diffs) [])

mutual
def n0size : Node0 → Nat
  | .mk _ none => 1
  | .mk _ (some l) => 1 + n0sizeL l
def n0sizeL : List Node0 → Nat
  | [] => 0
  | c :: cs => n0size c + n0sizeL cs
end

/-- `DiffPatchEngine.diff` on the roots of the two ASTs. -/
def dpeDiff (opts : DiffOptions) (oldRoot newRoot : Node0) : List Diff :=
  dpeOptimizeDiffs
    (dpeDiffNodes opts (n0size oldRoot + n0size newRoot)
      (some oldRoot) (some newRoot) [])

/-- A `div` element with a single unkeyed text child. -/
def c9dpeTree : Node0 :=
  Node0.mk { ntype := "Element".toList, name := some "div".toList }
    (some [Node0.mk { ntype := "Text".toList, value := some "hi".toList } none])

/-- Claim C9: the spec requires `diff(tree, tree) == []` for every tree,
but `DiffPatchEngine.diff` violates it on ordinary trees: because
`diffChildren` branches on the truthiness of the `useKeyAttribute` option
(default `'key'`) instead of on whether keys are present,
`diffChildrenWithKeys` runs on unkeyed children, matches nothing, and
emits REMOVE plus ADD for every child even when both trees are the same;
`optimizeDiffs` then drops the ADD (its path was just processed by the
REMOVE), leaving `[REMOVE [0]]` for a `div` with one unkeyed text
child. -/
theorem C9_diff_identity_fails :
    dpeDiff defaultDiffOptions c9dpeTree c9dpeTree = [Diff.remove [0]] ∧
    dpeDiff defaultDiffOptions c9dpeTree c9dpeTree ≠ [] := by
  constructor
  · rfl
  · rw [show dpeDiff defaultDiffOptions c9dpeTree c9dpeTree = [Diff.remove [0]]
      from rfl]
    simp
